import Mathlib

/-!
# Verification of `manifest_sync.py` (valkyrie-store)

Shallow embedding of `.github/scripts/manifest_sync.py`.  Python strings are
Lean `String`s; the `requests` network is an explicit deterministic oracle
(`Net`), so a retry loop re-issues the same request and observes the same
outcome; `configparser` is modelled by an executable state machine over the
lines of the document, faithful to CPython's `RawConfigParser._read` for the
line shapes occurring here (strict mode, delimiters `=`/`:`, comment
markers `#`/`;`, multi-line continuation by indentation, `[DEFAULT]`
handling, value interpolation applied on access only).  Python exceptions
are `Except` errors.
-/

set_option maxRecDepth 10000

deriving instance DecidableEq for Except

/-! ## Python string primitives (modelled on `List Char`) -/

/-- Python `str.lower`, ASCII semantics (sufficient for the names used here). -/
def pyLower (s : String) : String := ⟨s.data.map Char.toLower⟩

/-- Python `str.endswith`, via the character lists (kernel-reducible). -/
def pyEndsWith (s suf : String) : Bool := suf.data.isSuffixOf s.data

/-- Leading-whitespace removal, Python `str.lstrip()`. -/
def trimL (l : List Char) : List Char := l.dropWhile Char.isWhitespace

/-- Trailing-whitespace removal, Python `str.rstrip()`. -/
def trimR (l : List Char) : List Char := (l.reverse.dropWhile Char.isWhitespace).reverse

/-- Python `str.strip()`. -/
def trimB (l : List Char) : List Char := trimR (trimL l)

/-- Split a character list at every newline; mirrors iterating the lines of a
Python string (`"a\nb"` gives lines `a` and `b`; a trailing newline yields a
final empty line, which the config reader ignores). -/
def splitOnNl : List Char → List (List Char)
  | [] => [[]]
  | c :: t =>
    if c = '\n' then [] :: splitOnNl t
    else
      match splitOnNl t with
      | h :: r => (c :: h) :: r
      | [] => [[c]]

/-- Split at every occurrence of a character, Python `str.split(c)`. -/
def splitOnC (sep : Char) : List Char → List (List Char)
  | [] => [[]]
  | c :: t =>
    if c = sep then [] :: splitOnC sep t
    else
      match splitOnC sep t with
      | h :: r => (c :: h) :: r
      | [] => [[c]]

/-- Index of the first occurrence of `pat` as a sublist, Python `str.find`. -/
def subIdx (pat : List Char) : List Char → Option Nat
  | [] => if pat = [] then some 0 else none
  | l@(_ :: t) =>
    if pat.isPrefixOf l then some 0
    else (subIdx pat t).map (· + 1)

/-- Python `sub in s`. -/
def strContains (s sub : String) : Bool := (subIdx sub.data s.data).isSome

/-- Python `'/'.join(parts)` and friends. -/
def joinWith (sep : String) : List String → String
  | [] => ""
  | [x] => x
  | x :: t => x ++ sep ++ joinWith sep t

/-- Python `url[:-1]` applied when `url.endswith('/')` (lines 35-36). -/
def stripSlashEnd (url : String) : String :=
  if url.data.getLast? = some '/' then ⟨url.data.dropLast⟩ else url

/-- Python `path.strip('/')`. -/
def stripSlashes (s : String) : String :=
  ⟨((s.data.dropWhile (· = '/')).reverse.dropWhile (· = '/')).reverse⟩

/-! ## `urllib.parse.urlparse`, restricted to netloc/path

Modelled for URLs of the shape `scheme://netloc/path` (no query/fragment
splitting: the catalogue URLs handled by the script carry none).  A URL
without `://` has empty netloc, as with `urlparse`. -/

def urlNetlocPath (url : String) : String × String :=
  match subIdx "://".data url.data with
  | none => ("", url)
  | some i =>
    let after := url.data.drop (i + 3)
    let netloc := after.takeWhile (· ≠ '/')
    (⟨netloc⟩, ⟨after.drop netloc.length⟩)

/-- `"raw.githubusercontent.com" in urlparse(url).netloc` (lines 39 and 142). -/
def structHost (url : String) : Bool :=
  strContains (urlNetlocPath url).1 "raw.githubusercontent.com"

/-- `parsed.path.strip('/').split('/')` (lines 40 and 143). -/
def urlParts (url : String) : List String :=
  (splitOnC '/' (stripSlashes (urlNetlocPath url).2).data).map (fun l => ⟨l⟩)

/-- The contents-listing API URL built from `user`, `repo`, `branch` and the
optional sub-path (lines 42-48 and 144-150). -/
def contentsApiUrl (parts : List String) : String :=
  let user := parts.getD 0 ""
  let repo := parts.getD 1 ""
  let branch := parts.getD 2 ""
  let repo_path := joinWith "/" (parts.drop 3)
  if repo_path = "" then
    "https://api.github.com/repos/" ++ user ++ "/" ++ repo ++ "/contents?ref=" ++ branch
  else
    "https://api.github.com/repos/" ++ user ++ "/" ++ repo ++ "/contents/" ++ repo_path
      ++ "?ref=" ++ branch

/-- The commit-history API URL (line 189). -/
def commitsApiUrl (parts : List String) (target_path : String) : String :=
  let user := parts.getD 0 ""
  let repo := parts.getD 1 ""
  let branch := parts.getD 2 ""
  "https://api.github.com/repos/" ++ user ++ "/" ++ repo ++ "/commits?sha=" ++ branch
    ++ "&path=" ++ target_path

/-! ## Network oracle

`requests.get` either raises (transport error, timeout) or yields a status
and a body.  The two JSON decodings the script performs (`resp.json()` read
as a directory listing, and read as a commit list) are part of the oracle;
the script's own checks (`isinstance(files, list)`, `isinstance(data, list)
and data`) are the constructors below. -/

inductive GetR where
  | exn : GetR
  | resp (status : Nat) (body : String) : GetR
deriving DecidableEq

/-- One entry of a GitHub contents listing, the fields the script reads. -/
structure GFile where
  name : String
  path : String
  download_url : String
deriving DecidableEq

inductive JsonListing where
  | raises : JsonListing
  | notList : JsonListing
  | files (fs : List GFile) : JsonListing
deriving DecidableEq

inductive JsonCommits where
  | raises : JsonCommits
  | emptyOrNotList : JsonCommits
  | commits (date : String) : JsonCommits
deriving DecidableEq

structure Net where
  get : String → GetR
  json : String → JsonListing
  jsonC : String → JsonCommits

/-! ## `fetch_scenario_ini` (lines 29-105)

The model returns the ordered list of URLs passed to `requests.get`
together with the function's return value. -/

/-- Outcome of one iteration of a retry loop: either the function returns
(`done`), or the attempt failed and the loop moves to the next attempt. -/
inductive Att (α : Type) where
  | done (r : α) : Att α
  | again : Att α

/-- `for file in files: if scenario_name and file["name"].lower() ==
f"{scenario_name.lower()}.ini": ...` (lines 61-65); `scenario_name` must be
truthy (non-`None`, non-empty). -/
def selectIni (fs : List GFile) (scenario_name : Option String) : Option String :=
  match scenario_name with
  | none => none
  | some n =>
    if n = "" then none
    else (fs.find? (fun f => pyLower f.name == pyLower n ++ ".ini")).map (·.download_url)

/-- One attempt of the structured-hosting loop (lines 53-81): list the
directory; a non-list payload or an absent match returns `None` at once; a
matched entry is fetched with a second request; transport errors and
non-200 statuses fail the attempt. -/
def structAttempt (net : Net) (api_url : String) (scenario_name : Option String) :
    List String × Att (Option String) :=
  match net.get api_url with
  | .exn => ([api_url], .again)
  | .resp st body =>
    if st = 200 then
      match net.json body with
      | .raises => ([api_url], .again)
      | .notList => ([api_url], .done none)
      | .files fs =>
        match selectIni fs scenario_name with
        | none => ([api_url], .done none)
        | some dl =>
          match net.get dl with
          | .exn => ([api_url, dl], .again)
          | .resp st2 body2 =>
            if st2 = 200 then ([api_url, dl], .done (some body2))
            else ([api_url, dl], .again)
    else ([api_url], .again)

/-- One attempt of the flat direct fetch (lines 90-101). -/
def flatAttempt (net : Net) (ini_url : String) : List String × Att (Option String) :=
  match net.get ini_url with
  | .exn => ([ini_url], .again)
  | .resp st body =>
    if st = 200 then ([ini_url], .done (some body))
    else ([ini_url], .again)

/-- `for attempt in range(1, retries + 1)`: the oracle is deterministic, so
every iteration repeats the same attempt; exhausting the attempts yields
`None` (lines 82-83 and 102). -/
def attLoop (a : List String × Att (Option String)) : Nat → List String × Option String
  | 0 => ([], none)
  | n + 1 =>
    match a with
    | (log, .done v) => (log, v)
    | (log, .again) =>
      let r := attLoop a n
      (log ++ r.1, r.2)

def fetch_scenario_ini (net : Net) (url0 : String) (scenario_name : Option String)
    (retries : Nat) : List String × Option String :=
  let url := stripSlashEnd url0
  if structHost url then
    let parts := urlParts url
    if 3 ≤ parts.length then
      attLoop (structAttempt net (contentsApiUrl parts) scenario_name) retries
    else
      -- "URL path does not have enough parts": fall through to `return None`
      ([], none)
  else
    match scenario_name with
    | some n =>
      if n = "" then ([], none)
      else attLoop (flatAttempt net (url ++ "/" ++ n ++ ".ini")) retries
    | none => ([], none)

/-! ## `get_repo_file_info` (lines 133-215) -/

structure FileInfo where
  date : String
  filename : Option String
deriving DecidableEq

/-- `default_result = {"date": "1970-01-01T12:28:29Z", "filename": None}` (line 140). -/
def sentinelDate : String := "1970-01-01T12:28:29Z"

def default_result : FileInfo := ⟨sentinelDate, none⟩

/-- One attempt of the listing loop (lines 159-182): `.done none` models the
immediate `return default_result` branches (non-list payload, no entry with
the extension); `.done (some _)` the `break` with a matched file. -/
def infoListAttempt (net : Net) (api_url file_extension : String) :
    Att (Option (String × String)) :=
  match net.get api_url with
  | .exn => .again
  | .resp st body =>
    if st = 200 then
      match net.json body with
      | .raises => .again
      | .notList => .done none
      | .files fs =>
        match fs.find? (fun f => pyEndsWith (pyLower f.name) (pyLower file_extension)) with
        | some f => .done (some (f.path, f.name))
        | none => .done none
    else .again

/-- Exhausting the listing attempts leaves `target_file_path` unset, hence
`default_result` (lines 184-186); modelled by `none`. -/
def infoLoop (a : Att (Option (String × String))) : Nat → Option (String × String)
  | 0 => none
  | n + 1 =>
    match a with
    | .done v => v
    | .again => infoLoop a n

/-- One attempt of the commit-date loop (lines 190-206): an empty or
non-list commit payload falls through to the next attempt. -/
def commitsAttempt (net : Net) (repo_api : String) : Att String :=
  match net.get repo_api with
  | .exn => .again
  | .resp st body =>
    if st = 200 then
      match net.jsonC body with
      | .raises => .again
      | .emptyOrNotList => .again
      | .commits date => .done date
    else .again

def commitsLoop (a : Att String) : Nat → Option String
  | 0 => none
  | n + 1 =>
    match a with
    | .done v => some v
    | .again => commitsLoop a n

def get_repo_file_info (net : Net) (url : String) (retries : Nat)
    (file_extension : String) : FileInfo :=
  if structHost url then
    let parts := urlParts url
    if 3 ≤ parts.length then
      match infoLoop (infoListAttempt net (contentsApiUrl parts) file_extension) retries with
      | none => default_result
      | some (target_path, target_filename) =>
        match commitsLoop (commitsAttempt net (commitsApiUrl parts target_path)) retries with
        | some date => ⟨date, some target_filename⟩
        | none => default_result
    else default_result
  else default_result

/-! ## `configparser` document reading

`ConfigParser.read_string` with `optionxform = str` (case preserved),
strict mode, delimiters `=`/`:`, full-line comments `#`/`;`, and
indentation-based continuation lines, as used at lines 222-224 and 259-270.
Reading stores raw values; interpolation (when enabled) happens on access
and is modelled separately below. -/

inductive ReadErr where
  | missingSection : ReadErr
  | dupSection : ReadErr
  | dupOption : ReadErr
  | parseErr : ReadErr
deriving DecidableEq

/-- `SECTCRE = r"\[(?P<header>.+)\]"`, anchored at the start of the stripped
line: the header runs to the last `]`; later characters are discarded. -/
def sectHeader? (v : List Char) : Option (List Char) :=
  match v with
  | '[' :: rest =>
    match rest.reverse.dropWhile (· ≠ ']') with
    | ']' :: coreR => if coreR = [] then none else some coreR.reverse
    | _ => none
  | _ => none

/-- `OPTCRE`: the option name is everything before the first `=`/`:` with
trailing whitespace dropped; the value is the remainder, stripped. -/
def optLine? (v : List Char) : Option (List Char × List Char) :=
  let k := v.takeWhile (fun c => ¬(c = '=' ∨ c = ':'))
  match v.drop k.length with
  | _ :: rest => some (trimR k, trimB rest)
  | [] => none

/-- The section currently receiving options: none yet, `[DEFAULT]`, or a
named section. -/
inductive CurSec where
  | noSec : CurSec
  | defSec : CurSec
  | named (n : List Char) : CurSec
deriving DecidableEq

/-- Reader state: accumulated `DEFAULT` options and sections (each value a
list of physical lines, joined at the end), the current section, the
current option (for continuations and blank lines), and the indentation of
the last structural line. -/
structure RS where
  dflt : List (List Char × List (List Char))
  secs : List (List Char × List (List Char × List (List Char)))
  cur : CurSec
  opt : Option (List Char)
  indent : Nat

def initRS : RS := ⟨[], [], .noSec, none, 0⟩

/-- Python truthiness of `optname` (`None` and `''` are falsy). -/
def optActive (st : RS) : Bool :=
  match st.opt with
  | some o => o ≠ []
  | none => false

/-- Append one more physical line to the current option's value. -/
def appendToOpt (st : RS) (piece : List Char) : RS :=
  match st.opt with
  | none => st
  | some o =>
    match st.cur with
    | .noSec => st
    | .defSec =>
      { st with
        dflt := st.dflt.map fun (p : List Char × List (List Char)) =>
          if p.1 = o then (p.1, p.2 ++ [piece]) else p }
    | .named n =>
      { st with
        secs := st.secs.map fun (s : List Char × List (List Char × List (List Char))) =>
          if s.1 = n then
            (s.1, s.2.map fun p => if p.1 = o then (p.1, p.2 ++ [piece]) else p)
          else s }

/-- Does the current section already hold option `k` (strict mode)? -/
def optExists (st : RS) (k : List Char) : Bool :=
  match st.cur with
  | .noSec => false
  | .defSec => st.dflt.any (·.1 = k)
  | .named n =>
    ((st.secs.find? (·.1 = n)).map
      (fun (s : List Char × List (List Char × List (List Char))) => s.2.any (·.1 = k))).getD false

/-- Store a fresh option `k = v` in the current section. -/
def addOpt (st : RS) (k v : List Char) : RS :=
  let st' :=
    match st.cur with
    | .noSec => st
    | .defSec => { st with dflt := st.dflt ++ [(k, [v])] }
    | .named n =>
      { st with
        secs := st.secs.map fun (s : List Char × List (List Char × List (List Char))) =>
          if s.1 = n then (s.1, s.2 ++ [(k, [v])]) else s }
  { st' with opt := some k }

/-- Process one physical line, mirroring the body of
`RawConfigParser._read`. -/
def pstep (st : RS) (line : List Char) : Except ReadErr RS :=
  let value := trimB line
  if value = [] then
    -- blank line: with `empty_lines_in_values`, extend the current value
    .ok (if optActive st ∧ st.cur ≠ .noSec then appendToOpt st [] else st)
  else if value.headD ' ' = '#' ∨ value.headD ' ' = ';' then
    .ok st
  else
    let curIndent := (line.takeWhile Char.isWhitespace).length
    if st.cur ≠ .noSec ∧ optActive st ∧ st.indent < curIndent then
      .ok (appendToOpt st value)
    else
      let st := { st with indent := curIndent }
      match sectHeader? value with
      | some h =>
        if st.secs.any (·.1 = h) then .error .dupSection
        else if h = "DEFAULT".data then .ok { st with cur := .defSec, opt := none }
        else .ok { st with secs := st.secs ++ [(h, [])], cur := .named h, opt := none }
      | none =>
        match st.cur with
        | .noSec => .error .missingSection
        | _ =>
          match optLine? value with
          | some (k, v) =>
            if optExists st k then .error .dupOption
            else .ok (addOpt st k v)
          | none => .error .parseErr

def readAux (st : RS) : List (List Char) → Except ReadErr RS
  | [] => .ok st
  | l :: ls =>
    match pstep st l with
    | .ok st' => readAux st' ls
    | .error e => .error e

/-- `_join_multiline_values`: `'\n'.join(lines).rstrip()`. -/
def finishVal (lines : List (List Char)) : String :=
  ⟨trimR (joinWith "\n" (lines.map (fun l => (⟨l⟩ : String)))).data⟩

/-- A fully read document: raw (uninterpolated) values. -/
structure Cfg where
  dflt : List (String × String)
  secs : List (String × List (String × String))
deriving DecidableEq

def finishRS (st : RS) : Cfg :=
  ⟨st.dflt.map (fun (p : List Char × List (List Char)) => ((⟨p.1⟩ : String), finishVal p.2)),
   st.secs.map (fun (s : List Char × List (List Char × List (List Char))) =>
     ((⟨s.1⟩ : String), s.2.map (fun p => ((⟨p.1⟩ : String), finishVal p.2))))⟩

/-- The physical lines of a Python string as `read_string` iterates them:
a trailing newline does not open a final empty line. -/
def pyLines (l : List Char) : List (List Char) :=
  let ls := splitOnNl l
  if ls.getLast? = some [] then ls.dropLast else ls

/-- `ConfigParser.read_string` (the shared reading machinery of both parser
configurations used by the script). -/
def read_string (s : String) : Except ReadErr Cfg :=
  (readAux initRS (pyLines s.data)).map finishRS

/-! ## Value interpolation (`configparser.BasicInterpolation.before_get`)

`parse_manifest_ini` (line 222) builds its parser *without*
`interpolation=None`, so catalogue values pass through `BasicInterpolation`
when accessed; the scenario parser (line 259) disables it.  `%%` collapses
to `%`, `%(name)s` substitutes (recursively, depth at most 10), and any
other `%` raises `InterpolationSyntaxError`. -/

inductive PErr where
  | keyError : PErr
  | indexError : PErr
  | interpSyntax : PErr
  | interpMissing : PErr
  | interpDepth : PErr
  | parseRaise : PErr
  | writeFail : PErr
deriving DecidableEq

/-- Split a value's remainder at the first `)` (the `[^)]+` scan of
`_KEYCRE`): the characters before it and those after it. -/
def keySplit : List Char → Option (List Char × List Char)
  | [] => none
  | c :: t =>
    if c = ')' then some ([], t)
    else
      match keySplit t with
      | some (nm, r) => some (c :: nm, r)
      | none => none

/-- `_KEYCRE = "%\(([^)]+)\)s"` applied right after a `%(`: the referenced
name (non-empty, no `)`) must be followed by `)s`; yields the name and the
remainder of the value. -/
def keyMatch (l : List Char) : Option (List Char × List Char) :=
  match keySplit l with
  | none => none
  | some (nm, r2) =>
    match r2 with
    | 's' :: r => if nm = [] then none else some (nm, r)
    | _ => none

/-- The interpolation scan: one pass over the characters of a value.
`expand` performs the recursive interpolation of a substituted value that
itself contains `%` (one depth level deeper); the scan fuel is an upper
bound on the number of remaining characters (`interpD` passes the exact
length), so the `0` case is only reached on the empty remainder. -/
def interpScanF (lk : String → Option String)
    (expand : List Char → Except PErr (List Char)) :
    Nat → List Char → Except PErr (List Char)
  | 0, _ => .ok []
  | _ + 1, [] => .ok []
  | sf + 1, '%' :: rest =>
    match rest with
    | '%' :: r2 => (interpScanF lk expand sf r2).map (fun t => '%' :: t)
    | '(' :: r2 =>
      match keyMatch r2 with
      | none => .error .interpSyntax
      | some (nm, r3) =>
        match lk ⟨nm⟩ with
        | none => .error .interpMissing
        | some v =>
          if v.data.contains '%' then
            match expand v.data with
            | .ok w => (interpScanF lk expand sf r3).map (fun t => w ++ t)
            | .error e => .error e
          else (interpScanF lk expand sf r3).map (fun t => v.data ++ t)
    | _ => .error .interpSyntax
  | sf + 1, c :: rest => (interpScanF lk expand sf rest).map (fun t => c :: t)

/-- `BasicInterpolation._interpolate_some`: the first argument is the
remaining interpolation depth (`MAX_INTERPOLATION_DEPTH = 10`); entering
with exhausted depth raises `InterpolationDepthError`. -/
def interpD (lk : String → Option String) : Nat → List Char → Except PErr (List Char)
  | 0, _ => .error .interpDepth
  | d + 1, l => interpScanF lk (interpD lk d) l.length l

/-- Interpolation as applied by `parser.get` on a raw value; the lookup is
over the raw values of the section chained with the defaults. -/
def interpBeforeGet (lk : String → Option String) (v : String) : Except PErr String :=
  (interpD lk 10 v.data).map (fun l => ⟨l⟩)

/-! ## Access to a parsed document -/

/-- First association for a key: Python `dict` lookup on an ordered
association list. -/
def lookupKV {α : Type} (l : List (String × α)) (k : String) : Option α :=
  (l.find? (·.1 == k)).map (·.2)

/-- Python ordered-`dict` assignment `d[k] = v`: an existing key keeps its
position, a fresh key is appended. -/
def dictSet (d : List (String × String)) (k v : String) : List (String × String) :=
  if d.any (·.1 == k) then d.map (fun kv => if kv.1 == k then (kv.1, v) else kv)
  else d ++ [(k, v)]

/-- Raw (uninterpolated) value of `k` in section `s`:
`ChainMap(section, defaults)`. -/
def cfgRaw (c : Cfg) (s k : String) : Option String :=
  match lookupKV c.secs s with
  | none => none
  | some os => (lookupKV os k).orElse (fun _ => lookupKV c.dflt k)

/-- `k in config[s]` (`has_option`: own options or defaults; no
interpolation). -/
def cfgHasOption (c : Cfg) (s k : String) : Bool := (cfgRaw c s k).isSome

/-- `config[s][k]` on the catalogue parser (default `BasicInterpolation`):
raw lookup, then interpolation against the section's chain map. -/
def cfgGet (c : Cfg) (s k : String) : Except PErr String :=
  match cfgRaw c s k with
  | none => .error .keyError
  | some v => interpBeforeGet (fun name => cfgRaw c s name) v

/-- `d = defaults.copy(); d.update(section)`: the ordered key view used by
`SectionProxy.items()`. -/
def mergedItems (dflt own : List (String × String)) : List (String × String) :=
  dflt.map (fun kv => match lookupKV own kv.1 with | some v => (kv.1, v) | none => kv)
    ++ own.filter (fun kv => (lookupKV dflt kv.1).isNone)

/-! ## `process_scenario_section` (lines 248-319) -/

/-- `content.lstrip('﻿')` (line 268). -/
def lstripBom (s : String) : String := ⟨s.data.dropWhile (· = '﻿')⟩

/-- Lines 262-279: parse the fetched document with interpolation disabled;
on `MissingSectionHeaderError` strip the BOM and parse once more; any
other failure is a skip (`none`). -/
def scenarioParse (content : String) : Option Cfg :=
  match read_string content with
  | .ok c => some c
  | .error .missingSection =>
    match read_string (lstripBom content) with
    | .ok c => some c
    | .error _ => none
  | .error _ => none

/-- One record of the output manifest. -/
structure Record where
  name : String
  data : List (String × String)
deriving DecidableEq

/-- Lines 299-312: inject the optional metrics when `stats_map` is truthy,
a filename was matched and it is a key (case-sensitively) of the index.
Numeric JSON metric values are represented by their Python `str()`
rendering. -/
def injectStats (stats_map : List (String × List (String × String)))
    (filename : Option String) (d : List (String × String)) : List (String × String) :=
  match filename with
  | none => d
  | some f =>
    if stats_map ≠ [] ∧ f ≠ "" then
      match lookupKV stats_map f with
      | none => d
      | some stats =>
        let d1 := match lookupKV stats "scenario_avg_rating" with
          | some v => dictSet d "rating" v
          | none => d
        let d2 := match lookupKV stats "scenario_play_count" with
          | some v => dictSet d1 "play_count" v
          | none => d1
        let d3 := match lookupKV stats "scenario_avg_duration" with
          | some v => dictSet d2 "duration" v
          | none => d2
        match lookupKV stats "scenario_avg_win_ratio" with
          | some v => dictSet d3 "win_ratio" v
          | none => d3
    else d

/-- Lines 296-312: set `url` (the original, unnormalized URL) and
`latest_update`, then inject metrics. -/
def assembleData (base : List (String × String)) (external_url : String)
    (repo : FileInfo) (stats_map : List (String × List (String × String))) :
    List (String × String) :=
  injectStats stats_map repo.filename
    (dictSet (dictSet base "url" external_url) "latest_update" repo.date)

/-- Lines 248-319; `sect` is the catalogue section name.  `.ok none` is a
skip, `.error` an exception escaping the function (caught per entry by the
aggregator). -/
def process_scenario_section (net : Net) (sect : String) (config : Cfg)
    (stats_map : List (String × List (String × String))) (file_extension : String) :
    Except PErr (Option Record) :=
  match lookupKV config.secs sect with
  | none => .error .keyError          -- `config[sect]` on an absent section
  | some _ =>
    if ¬ cfgHasOption config sect "external" then .ok none
    else
      match cfgGet config sect "external" with
      | .error e => .error e          -- interpolation error on access
      | .ok external_url =>
        match (fetch_scenario_ini net external_url (some sect) 3).2 with
        | none => .ok none
        | some content =>
          if content = "" then .ok none   -- `if not scenario_ini_content`
          else
            match scenarioParse content with
            | none => .ok none
            | some sc =>
              match
                (if sc.secs.any (·.1 == "Quest") then
                  (lookupKV sc.secs "Quest").map (mergedItems sc.dflt)
                else (sc.secs.head?).map (fun s => mergedItems sc.dflt s.2))
              with
              | none => .error .indexError  -- `sections()[0]` on an empty document
              | some scenario_data =>
                let repo_info := get_repo_file_info net external_url 3 file_extension
                .ok (some ⟨sect, assembleData scenario_data external_url repo_info stats_map⟩)

/-! ## Serialization and the batch aggregator (lines 227-246 and 321-342) -/

def dataLinesStr : List (String × String) → String
  | [] => ""
  | (k, v) :: t => k ++ "=" ++ v ++ "\n" ++ dataLinesStr t

def blocksStr : List Record → String
  | [] => ""
  | r :: t => "[" ++ r.name ++ "]\n" ++ dataLinesStr r.data ++ "\n" ++ blocksStr t

/-- Lines 230-240: the document written to the output file (header comment
with the count, then each record's section and `key=value` lines followed
by a blank line). -/
def serialize_manifest (scenarios : List Record) (is_content_pack : Bool) : String :=
  "# Generated with " ++ toString scenarios.length
    ++ (if is_content_pack then " content packs" else " scenarios") ++ "\n"
    ++ blocksStr scenarios

/-- Lines 227-246: the write may raise (oracle `fsWrite`), but the
exception is caught and logged (lines 245-246) — the function always
returns normally. -/
def write_manifest_download_ini (fsWrite : String → Except PErr Unit)
    (scenarios : List Record) (is_content_pack : Bool) : Except PErr Unit :=
  match fsWrite (serialize_manifest scenarios is_content_pack) with
  | .ok _ => .ok ()
  | .error _ => .ok ()

/-- Lines 321-342.  `stats_map` stands for the result of `fetch_stats()`
(which catches every failure internally and returns a dictionary, so it
never raises); `manifest_content` is the text read from the catalogue file.
A catalogue parse failure propagates (`parse_manifest_ini` is not
guarded); each entry is processed under `try/except`, so a per-entry
exception only skips that entry.  The result carries the collected records
and the document handed to the writer; `.error` models an exception
escaping `process_manifest`. -/
def process_manifest (net : Net) (stats_map : List (String × List (String × String)))
    (manifest_content : String) (fsWrite : String → Except PErr Unit) :
    Except PErr (List Record × String) :=
  match read_string manifest_content with
  | .error _ => .error .parseRaise
  | .ok config =>
    let scenarios := (config.secs.map (·.1)).foldl
      (fun acc sect =>
        match process_scenario_section net sect config stats_map ".valkyrie" with
        | .ok (some sc) => acc ++ [sc]
        | .ok none => acc
        | .error _ => acc) []
    match write_manifest_download_ini fsWrite scenarios false with
    | .ok _ => .ok (scenarios, serialize_manifest scenarios false)
    | .error e => .error e

/-- The per-entry outcomes of a batch, written as a `filterMap`: an entry
that raises or skips contributes nothing and later entries are unaffected. -/
def collectRecords (net : Net) (config : Cfg)
    (stats_map : List (String × List (String × String))) : List Record :=
  (config.secs.map (·.1)).filterMap fun sect =>
    match process_scenario_section net sect config stats_map ".valkyrie" with
    | .ok (some sc) => some sc
    | .ok none => none
    | .error _ => none

/-! ## Concrete oracles used by witnesses and counterexamples -/

/-- A network that answers every request with the same small metadata
document; JSON decodings raise. -/
def netA : Net := ⟨fun _ => .resp 200 "[Quest]\ntitle=T\n", fun _ => .raises, fun _ => .raises⟩

/-- A file system whose write always raises. -/
def failWriter : String → Except PErr Unit := fun _ => .error .writeFail

/-- A file system whose write succeeds. -/
def okWriter : String → Except PErr Unit := fun _ => .ok ()

/-- A network that would happily serve the flat fetch for any URL — used to
show the flat fallback is not even attempted for a structured-host URL with
a short path. -/
def netServeAll : Net := ⟨fun _ => .resp 200 "served", fun _ => .raises, fun _ => .raises⟩

/-- A network serving a structured listing containing `foo.ini` (matched
case-insensitively for entry name `Foo`) and its download. -/
def netB : Net :=
  ⟨fun url =>
    if url = "https://api.github.com/repos/u/r/contents?ref=main" then .resp 200 "LISTING"
    else .resp 200 "[Quest]\ntitle=T\n",
   fun body => if body = "LISTING" then .files [⟨"foo.ini", "foo.ini", "http://dl/foo.ini"⟩]
     else .raises,
   fun _ => .raises⟩

/-- A network for the degraded freshness cases: the listing succeeds with a
single matching file, the commits request raises. -/
def netC : Net :=
  ⟨fun url =>
    if url = "https://api.github.com/repos/u/r/contents?ref=main" then .resp 200 "LISTING"
    else .exn,
   fun body => if body = "LISTING" then .files [⟨"Game.valkyrie", "Game.valkyrie", "dl"⟩]
     else .raises,
   fun _ => .raises⟩

/-- The catalogue used for the five-entry demonstration: entry `E3`'s
`external` value holds a lone `%`, so accessing it raises an interpolation
error while the entry is being processed. -/
def fiveEntryContent : String :=
  "[E1]\nexternal=http://h/a\n\n[E2]\nexternal=http://h/b\n\n[E3]\nexternal=http://h/%\n\n"
    ++ "[E4]\nexternal=http://h/d\n\n[E5]\nexternal=http://h/e\n"

/-- The record produced for each successful entry of `fiveEntryContent`
under `netA`. -/
def recE (n : String) (u : String) : Record :=
  ⟨n, [("title", "T"), ("url", u), ("latest_update", sentinelDate)]⟩

/-! ## Reading back all pairs of a document (for the round-trip claim)

`parse_manifest_ini` returns the parser object; recovering the `(name,
data)` pairs reads every section's items, which on this parser applies
`BasicInterpolation` to each value. -/

def sectionItemsInterp (c : Cfg) (sname : String) : Except PErr (List (String × String)) :=
  match lookupKV c.secs sname with
  | none => .error .keyError
  | some os =>
    (mergedItems c.dflt os).mapM
      (fun kv => (interpBeforeGet (fun nm2 => cfgRaw c sname nm2) kv.2).map (fun w => (kv.1, w)))

def cfgPairs (c : Cfg) : Except PErr (List (String × List (String × String))) :=
  (c.secs.map (·.1)).mapM (fun s => (sectionItemsInterp c s).map (fun it => (s, it)))

/-! ## Well-formedness domain of the serializer's round trip -/

/-- A section name round-trips when non-empty, newline-free, and not the
`DEFAULT` sentinel section. -/
def wfNameP (n : String) : Prop :=
  n.data ≠ [] ∧ (∀ c ∈ n.data, c ≠ '\n') ∧ n ≠ "DEFAULT"

/-- A key round-trips when non-empty, free of newlines and of the `=`/`:`
delimiters, without trailing whitespace, with a non-whitespace first
character that is not a section/comment marker. -/
def wfKeyP (k : String) : Prop :=
  k.data ≠ [] ∧ (∀ c ∈ k.data, c ≠ '\n' ∧ c ≠ '=' ∧ c ≠ ':') ∧
  trimR k.data = k.data ∧
  ¬ (k.data.headD ' ').isWhitespace ∧
  k.data.headD ' ' ≠ '[' ∧ k.data.headD ' ' ≠ '#' ∧ k.data.headD ' ' ≠ ';'

/-- A value round-trips when newline-free, untouched by stripping, and —
because the catalogue parser interpolates on access — free of `%`. -/
def wfValP (v : String) : Prop :=
  (∀ c ∈ v.data, c ≠ '\n' ∧ c ≠ '%') ∧ trimL v.data = v.data ∧ trimR v.data = v.data

def wfRecordP (r : Record) : Prop :=
  wfNameP r.name ∧ (∀ kv ∈ r.data, wfKeyP kv.1 ∧ wfValP kv.2) ∧ (r.data.map (·.1)).Nodup

def wfBatchP (rs : List Record) : Prop :=
  (∀ r ∈ rs, wfRecordP r) ∧ (rs.map (·.name)).Nodup

instance decWfNameP (n : String) : Decidable (wfNameP n) := by
  unfold wfNameP
  infer_instance

instance decWfKeyP (k : String) : Decidable (wfKeyP k) := by
  unfold wfKeyP
  infer_instance

instance decWfValP (v : String) : Decidable (wfValP v) := by
  unfold wfValP
  infer_instance

instance decWfRecordP (r : Record) : Decidable (wfRecordP r) := by
  unfold wfRecordP
  infer_instance

instance decWfBatchP (rs : List Record) : Decidable (wfBatchP rs) := by
  unfold wfBatchP
  infer_instance

/-! ## The physical lines of a serialized manifest -/

/-- The option line `k=v`. -/
def lineOf (kv : String × String) : List Char := kv.1.data ++ '=' :: kv.2.data

/-- The lines of one record's block: section header, one option line per
field, a blank separator. -/
def recLines (r : Record) : List (List Char) :=
  ('[' :: r.name.data ++ [']']) :: (r.data.map lineOf ++ [[]])

/-- How one record's options sit in the reader state after its block: each
value is a single physical line, and the blank separator adds an empty
continuation line to the last option. -/
def storeData : List (String × String) → List (List Char × List (List Char))
  | [] => []
  | [kv] => [(kv.1.data, [kv.2.data, []])]
  | kv :: t => (kv.1.data, [kv.2.data]) :: storeData t

/-- The current option after a record's block. -/
def optAfter (r : Record) : Option (List Char) :=
  (r.data.getLast?).map (fun kv => kv.1.data)

/-- The blank separator's effect on the stored options of the current
section. -/
def finishBlank (acc : List (List Char × List (List Char))) :
    Option (List Char) → List (List Char × List (List Char))
  | none => acc
  | some o => acc.map (fun p => if p.1 = o then (p.1, p.2 ++ [[]]) else p)

/-- The current option after a run of option lines. -/
def lastKeyOpt : List (String × String) → Option (List Char) → Option (List Char)
  | [], o => o
  | kv :: t, _ => lastKeyOpt t (some kv.1.data)

/-- The header characters of the serialized manifest. -/
def headerChars (count : Nat) (is_content_pack : Bool) : List Char :=
  "# Generated with ".data ++ (toString count).data
    ++ (if is_content_pack then " content packs" else " scenarios").data

theorem keySplit_length : ∀ {l nm r : List Char}, keySplit l = some (nm, r) →
    l.length = nm.length + 1 + r.length := by
  intro l
  induction l with
  | nil => intro nm r h; simp [keySplit] at h
  | cons c t ih =>
    intro nm r h
    rw [keySplit] at h
    by_cases hc : c = ')'
    · rw [if_pos hc] at h
      cases h
      simp
      omega
    · rw [if_neg hc] at h
      rcases hk : keySplit t with _ | ⟨nm2, r2⟩ <;> rw [hk] at h
      · simp at h
      · cases h
        have := ih hk
        simp [this]
        omega

theorem keyMatch_length {l nm r : List Char} (h : keyMatch l = some (nm, r)) :
    r.length < l.length := by
  unfold keyMatch at h
  split at h
  · simp at h
  · next nm2 r2 hks =>
    have hlen := keySplit_length hks
    split at h
    · split at h
      · simp at h
      · cases h
        simp at hlen
        omega
    · simp at h

/-! ## Retry-loop lemmas -/

theorem attLoop_elem {a : List String × Att (Option String)} :
    ∀ {n : Nat} {q : String}, q ∈ (attLoop a n).1 → q ∈ a.1 := by
  intro n
  induction n with
  | zero => intro q h; simp [attLoop] at h
  | succ n ih =>
    intro q h
    rcases a with ⟨log, att⟩
    cases att with
    | done v => simpa [attLoop] using h
    | again =>
      simp only [attLoop, List.mem_append] at h
      rcases h with h | h
      · exact h
      · exact ih h

theorem attLoop_ne {a : List String × Att (Option String)} {n : Nat}
    (hn : 1 ≤ n) (ha : a.1 ≠ []) : (attLoop a n).1 ≠ [] := by
  rcases n with _ | n
  · omega
  · rcases a with ⟨log, att⟩
    cases att with
    | done v => simpa [attLoop] using ha
    | again => simp [attLoop, ha]

theorem attLoop_head {a : List String × Att (Option String)} {n : Nat}
    (hn : 1 ≤ n) (ha : a.1 ≠ []) : (attLoop a n).1.head? = a.1.head? := by
  rcases n with _ | n
  · omega
  · rcases a with ⟨log, att⟩
    cases att with
    | done v => simp [attLoop]
    | again => simp [attLoop, List.head?_append_of_ne_nil _ ha]

theorem flatAttempt_log (net : Net) (u : String) : (flatAttempt net u).1 = [u] := by
  unfold flatAttempt
  rcases net.get u with _ | ⟨st, body⟩
  · rfl
  · simp only
    split <;> rfl

/-! ## Claims C3, C4, C7: resolver addressing -/

/-- Claim C3 (confirmed): for a flat (non-structured-hosting) URL `u` and a
non-empty entry name `e`, every request the resolver issues goes to exactly
`stripSlashEnd u ++ "/" ++ e ++ ".ini"` (a single trailing slash of `u` is
stripped before appending), and at least one request is issued. -/
theorem claim_C3_thm (net : Net) (u e : String) (r : Nat)
    (hflat : structHost (stripSlashEnd u) = false) (he : e ≠ "") (hr : 1 ≤ r) :
    (∀ q ∈ (fetch_scenario_ini net u (some e) r).1,
      q = stripSlashEnd u ++ "/" ++ e ++ ".ini") ∧
    (fetch_scenario_ini net u (some e) r).1 ≠ [] := by
  unfold fetch_scenario_ini
  simp only [hflat, Bool.false_eq_true, if_false, he, if_neg]
  constructor
  · intro q hq
    have := attLoop_elem hq
    rw [flatAttempt_log] at this
    simpa using this
  · exact attLoop_ne hr (by rw [flatAttempt_log]; simp)

/-- Witness for C3 at a concrete flat URL with a trailing slash. -/
theorem claim_C3_wit :
    (∀ q ∈ (fetch_scenario_ini netA "http://example.com/dir/" (some "Foo") 3).1,
      q = "http://example.com/dir/Foo.ini") ∧
    (fetch_scenario_ini netA "http://example.com/dir/" (some "Foo") 3).1 ≠ [] := by
  have h := claim_C3_thm netA "http://example.com/dir/" "Foo" 3 (by decide) (by decide) (by decide)
  simpa using h

/-- Counterexample to claim C4 as stated: for the structured-host URL
`https://raw.githubusercontent.com/user/repo` (path lacking the
user/repo/branch shape) the resolver issues no request at all and returns
`None`; it does not fall back to the flat fetch even against a network that
would serve it. -/
theorem claim_C4_cex :
    fetch_scenario_ini netServeAll "https://raw.githubusercontent.com/user/repo"
      (some "Foo") 3 = ([], none) := by decide

/-- Claim C4 (corrected): URLs whose netloc does not contain the structured
host fall back to the flat convention (the first request is the direct
fetch of `stripSlashEnd u ++ "/" ++ e ++ ".ini"`); a URL on the structured
host whose path lacks the user/repo/branch shape instead yields `None`
without any fetch attempt. -/
theorem claim_C4_thm :
    (∀ (net : Net) (u e : String) (r : Nat),
      structHost (stripSlashEnd u) = false → e ≠ "" → 1 ≤ r →
      ((fetch_scenario_ini net u (some e) r).1).head?
        = some (stripSlashEnd u ++ "/" ++ e ++ ".ini")) ∧
    (∀ (net : Net) (u e : String) (r : Nat),
      structHost (stripSlashEnd u) = true → (urlParts (stripSlashEnd u)).length < 3 →
      fetch_scenario_ini net u (some e) r = ([], none)) := by
  constructor
  · intro net u e r hflat he hr
    unfold fetch_scenario_ini
    simp only [hflat, Bool.false_eq_true, if_false, he, if_neg]
    rw [attLoop_head hr (by rw [flatAttempt_log]; simp), flatAttempt_log]
    rfl
  · intro net u e r hhost hlt
    unfold fetch_scenario_ini
    simp only [hhost, if_true]
    rw [if_neg (by omega)]

/-- Witness for C4 (amended) at concrete inputs for both conjuncts. -/
theorem claim_C4_wit :
    ((fetch_scenario_ini netA "http://example.com" (some "Foo") 3).1).head?
      = some ("http://example.com/Foo.ini") ∧
    fetch_scenario_ini netA "https://raw.githubusercontent.com/onlyuser" (some "Foo") 3
      = ([], none) := by
  constructor
  · have h := claim_C4_thm.1 netA "http://example.com" "Foo" 3 (by decide) (by decide) (by decide)
    simpa using h
  · exact claim_C4_thm.2 netA "https://raw.githubusercontent.com/onlyuser" "Foo" 3
      (by decide) (by decide)

/-- Claim C7 (confirmed): for a structured-hosting URL whose directory
listing succeeds, resolution selects the first listing entry whose name
equals `e ++ ".ini"` case-insensitively: if no entry matches, the resolver
returns `None` after the single listing request and fetches nothing else;
if an entry matches, every request is either the listing request or the
matched entry's download URL — no other entry is fetched. -/
theorem claim_C7_thm (net : Net) (u e b : String) (fs : List GFile) (r : Nat)
    (hhost : structHost (stripSlashEnd u) = true)
    (hparts : 3 ≤ (urlParts (stripSlashEnd u)).length)
    (hget : net.get (contentsApiUrl (urlParts (stripSlashEnd u))) = .resp 200 b)
    (hjson : net.json b = .files fs)
    (he : e ≠ "") (hr : 1 ≤ r) :
    (fs.find? (fun f => pyLower f.name == pyLower e ++ ".ini") = none →
      fetch_scenario_ini net u (some e) r
        = ([contentsApiUrl (urlParts (stripSlashEnd u))], none)) ∧
    (∀ f, fs.find? (fun f => pyLower f.name == pyLower e ++ ".ini") = some f →
      ∀ q ∈ (fetch_scenario_ini net u (some e) r).1,
        q = contentsApiUrl (urlParts (stripSlashEnd u)) ∨ q = f.download_url) := by
  unfold fetch_scenario_ini
  simp only [hhost, if_true, if_pos hparts]
  have hsel : ∀ res, selectIni fs (some e) = res →
      structAttempt net (contentsApiUrl (urlParts (stripSlashEnd u))) (some e)
        = match res with
          | none => ([contentsApiUrl (urlParts (stripSlashEnd u))], .done none)
          | some dl =>
            match net.get dl with
            | .exn => ([contentsApiUrl (urlParts (stripSlashEnd u)), dl], .again)
            | .resp st2 body2 =>
              if st2 = 200 then
                ([contentsApiUrl (urlParts (stripSlashEnd u)), dl], .done (some body2))
              else ([contentsApiUrl (urlParts (stripSlashEnd u)), dl], .again) := by
    intro res hres
    unfold structAttempt
    rw [hget]
    simp [hjson, hres]
  constructor
  · intro hnone
    have := hsel none (by simp [selectIni, he, hnone])
    rw [this]
    rcases r with _ | r
    · omega
    · rfl
  · intro f hf q hq
    have hsa := hsel (some f.download_url) (by simp [selectIni, he, hf])
    simp only at hsa
    rcases hg : net.get f.download_url with _ | ⟨st2, body2⟩ <;> rw [hg] at hsa <;>
      simp only at hsa
    · rw [hsa] at hq
      simpa using attLoop_elem hq
    · by_cases h200 : st2 = 200
      · rw [if_pos h200] at hsa
        rw [hsa] at hq
        simpa using attLoop_elem hq
      · rw [if_neg h200] at hsa
        rw [hsa] at hq
        simpa using attLoop_elem hq

/-- Witness for C7: entry name `Foo` selects the listing entry `foo.ini`
case-insensitively, and only the listing and that entry are fetched. -/
theorem claim_C7_wit :
    fetch_scenario_ini netB "https://raw.githubusercontent.com/u/r/main" (some "Bar") 3
      = ([contentsApiUrl (urlParts (stripSlashEnd "https://raw.githubusercontent.com/u/r/main"))],
          none) ∧
    ("http://dl/foo.ini"
        = contentsApiUrl (urlParts (stripSlashEnd "https://raw.githubusercontent.com/u/r/main"))
      ∨ "http://dl/foo.ini" = "http://dl/foo.ini") := by
  constructor
  · exact (claim_C7_thm netB "https://raw.githubusercontent.com/u/r/main" "Bar" "LISTING"
      [⟨"foo.ini", "foo.ini", "http://dl/foo.ini"⟩] 3
      (by decide) (by decide) (by decide) (by decide) (by decide) (by decide)).1 (by decide)
  · exact (claim_C7_thm netB "https://raw.githubusercontent.com/u/r/main" "Foo" "LISTING"
      [⟨"foo.ini", "foo.ini", "http://dl/foo.ini"⟩] 3
      (by decide) (by decide) (by decide) (by decide) (by decide) (by decide)).2
      ⟨"foo.ini", "foo.ini", "http://dl/foo.ini"⟩ (by decide) "http://dl/foo.ini" (by decide)

/-! ## Dictionary and loop lemmas for the freshness/metrics claims -/

theorem infoLoop_again : ∀ n, infoLoop .again n = none
  | 0 => rfl
  | n + 1 => by simpa [infoLoop] using infoLoop_again n

theorem commitsLoop_again : ∀ n, commitsLoop .again n = none
  | 0 => rfl
  | n + 1 => by simpa [commitsLoop] using commitsLoop_again n

theorem lookupKV_dictSet_self (d : List (String × String)) (k v : String) :
    lookupKV (dictSet d k v) k = some v := by
  unfold dictSet
  by_cases h : d.any (·.1 == k)
  · rw [if_pos h]
    induction d with
    | nil => simp at h
    | cons kv t ih =>
      simp only [List.any_cons, Bool.or_eq_true] at h
      by_cases hk : kv.1 == k
      · simp only [List.map_cons, if_pos hk]
        rw [lookupKV, List.find?_cons_of_pos _ (by simpa using hk)]
        rfl
      · have h2 : t.any (·.1 == k) = true := by
          rcases h with h | h
          · exact absurd h hk
          · exact h
        simp only [List.map_cons, if_neg hk]
        rw [lookupKV, List.find?_cons_of_neg _ (by simpa using hk)]
        exact ih h2
  · rw [if_neg h]
    have hnone : d.find? (·.1 == k) = none := by
      rw [List.find?_eq_none]
      intro x hx hpx
      exact h (List.any_eq_true.mpr ⟨x, hx, hpx⟩)
    rw [lookupKV, List.find?_append, hnone]
    simp

theorem lookupKV_dictSet_ne (d : List (String × String)) (k v k' : String) (h : k' ≠ k) :
    lookupKV (dictSet d k v) k' = lookupKV d k' := by
  unfold dictSet
  by_cases hany : d.any (·.1 == k)
  · rw [if_pos hany]
    clear hany
    induction d with
    | nil => rfl
    | cons kv t ih =>
      by_cases hk : kv.1 == k
      · have hkk : kv.1 = k := by simpa using hk
        have hk' : (kv.1 == k') = false := by
          rw [hkk]
          simp
          exact fun hh => h hh.symm
        simp only [List.map_cons, if_pos hk]
        rw [lookupKV, List.find?_cons_of_neg _ (by simp [hk']), lookupKV,
          List.find?_cons_of_neg _ (by simp [hk'])]
        exact ih
      · simp only [List.map_cons, if_neg hk]
        by_cases hk2 : kv.1 == k'
        · rw [lookupKV, List.find?_cons_of_pos _ (by simpa using hk2), lookupKV,
            List.find?_cons_of_pos _ (by simpa using hk2)]
        · rw [lookupKV, List.find?_cons_of_neg _ (by simpa using hk2), lookupKV,
            List.find?_cons_of_neg _ (by simpa using hk2)]
          exact ih
  · rw [if_neg hany]
    rw [lookupKV, List.find?_append]
    have hsingle : List.find? (·.1 == k') [(k, v)] = none := by
      have hkk' : (k == k') = false := by
        simp
        exact fun hh => h hh.symm
      simp [List.find?, hkk']
    rw [hsingle]
    simp [lookupKV]

theorem lookupKV_some_ne_nil {α : Type} {sm : List (String × α)} {f : String} {st : α}
    (h : lookupKV sm f = some st) : sm ≠ [] := by
  intro he
  subst he
  simp [lookupKV] at h

/-! ## Claim C8: the freshness sentinel -/

/-- Claim C8 (confirmed): `get_repo_file_info` yields the fixed sentinel
`1970-01-01T12:28:29Z` exactly in the degraded cases — (a) immediately for
any URL not matching the structured convention (the result is the default
for every network oracle, i.e. no network call decides it); (b) when the
listing succeeds but no entry's name ends with the extension
(case-insensitively); (c) when the listing fails on every attempt; (d)
when the revision-history lookup fails on every attempt, in which case the
assembled record's `latest_update` field is the sentinel. -/
theorem claim_C8_thm :
    (∀ (net : Net) (u : String) (r : Nat) (ext : String),
      structHost u = false ∨ (urlParts u).length < 3 →
      get_repo_file_info net u r ext = default_result) ∧
    (∀ (net : Net) (u b : String) (fs : List GFile) (r : Nat) (ext : String),
      structHost u = true → 3 ≤ (urlParts u).length →
      net.get (contentsApiUrl (urlParts u)) = .resp 200 b →
      net.json b = .files fs →
      fs.find? (fun f => pyEndsWith (pyLower f.name) (pyLower ext)) = none →
      get_repo_file_info net u r ext = default_result) ∧
    (∀ (net : Net) (u : String) (r : Nat) (ext : String),
      structHost u = true → 3 ≤ (urlParts u).length →
      net.get (contentsApiUrl (urlParts u)) = .exn →
      get_repo_file_info net u r ext = default_result) ∧
    (∀ (net : Net) (u b : String) (fs : List GFile) (f : GFile) (r : Nat) (ext : String),
      structHost u = true → 3 ≤ (urlParts u).length →
      net.get (contentsApiUrl (urlParts u)) = .resp 200 b →
      net.json b = .files fs →
      fs.find? (fun f => pyEndsWith (pyLower f.name) (pyLower ext)) = some f →
      net.get (commitsApiUrl (urlParts u) f.path) = .exn →
      get_repo_file_info net u r ext = default_result ∧
      (∀ base u2 sm,
        lookupKV (assembleData base u2 (get_repo_file_info net u r ext) sm) "latest_update"
          = some sentinelDate)) := by
  have hatt : ∀ (net : Net) (u b : String) (fs : List GFile) (ext : String),
      net.get (contentsApiUrl (urlParts u)) = .resp 200 b →
      net.json b = .files fs →
      infoListAttempt net (contentsApiUrl (urlParts u)) ext
        = match fs.find? (fun f => pyEndsWith (pyLower f.name) (pyLower ext)) with
          | some f => .done (some (f.path, f.name))
          | none => .done none := by
    intro net u b fs ext hget hjson
    unfold infoListAttempt
    rw [hget]
    simp [hjson]
  refine ⟨?_, ?_, ?_, ?_⟩
  · intro net u r ext hcase
    unfold get_repo_file_info
    rcases hcase with hh | hl
    · rw [hh]
      rfl
    · by_cases hh : structHost u
      · rw [if_pos hh, if_neg (by omega)]
      · rw [if_neg (by simp [hh])]
  · intro net u b fs r ext hh hp hget hjson hfind
    unfold get_repo_file_info
    rw [if_pos hh, if_pos hp, hatt net u b fs ext hget hjson, hfind]
    rcases r with _ | r <;> rfl
  · intro net u r ext hh hp hget
    unfold get_repo_file_info
    rw [if_pos hh, if_pos hp]
    have : infoListAttempt net (contentsApiUrl (urlParts u)) ext = .again := by
      unfold infoListAttempt
      rw [hget]
    rw [this, infoLoop_again]
  · intro net u b fs f r ext hh hp hget hjson hfind hcget
    have hres : get_repo_file_info net u r ext = default_result := by
      unfold get_repo_file_info
      rw [if_pos hh, if_pos hp, hatt net u b fs ext hget hjson, hfind]
      rcases r with _ | r
      · rfl
      · have hc : commitsAttempt net (commitsApiUrl (urlParts u) f.path) = .again := by
          unfold commitsAttempt
          rw [hcget]
        simp only [infoLoop, hc, commitsLoop_again]
    refine ⟨hres, ?_⟩
    intro base u2 sm
    rw [hres]
    show lookupKV (injectStats sm default_result.filename
      (dictSet (dictSet base "url" u2) "latest_update" default_result.date)) "latest_update"
      = some sentinelDate
    exact lookupKV_dictSet_self _ _ _

/-- Witness for C8: the non-structured case and the failed-history case at
concrete inputs. -/
theorem claim_C8_wit :
    get_repo_file_info netA "http://example.com/x" 3 ".valkyrie" = default_result ∧
    get_repo_file_info netC "https://raw.githubusercontent.com/u/r/main" 3 ".valkyrie"
      = default_result := by
  constructor
  · exact claim_C8_thm.1 netA "http://example.com/x" 3 ".valkyrie" (Or.inl (by decide))
  · exact (claim_C8_thm.2.2.2 netC "https://raw.githubusercontent.com/u/r/main" "LISTING"
      [⟨"Game.valkyrie", "Game.valkyrie", "dl"⟩] ⟨"Game.valkyrie", "Game.valkyrie", "dl"⟩
      3 ".valkyrie" (by decide) (by decide) (by decide) (by decide) (by decide) (by decide)).1

/-! ## Claim C10: failed history drops the filename, hence no metrics -/

/-- Claim C10 (confirmed): when the listing succeeds and matches a file but
the revision-history lookup fails on every attempt, the result is the
default — the filename is `none`, not the matched name — and consequently
the assembled record receives no metric fields at all, even when the
statistics index contains the matched filename: the data is exactly the
base with `url` and the sentinel `latest_update`. -/
theorem claim_C10_thm (net : Net) (u b : String) (fs : List GFile) (f : GFile) (r : Nat)
    (ext : String)
    (hh : structHost u = true) (hp : 3 ≤ (urlParts u).length)
    (hget : net.get (contentsApiUrl (urlParts u)) = .resp 200 b)
    (hjson : net.json b = .files fs)
    (hfind : fs.find? (fun g => pyEndsWith (pyLower g.name) (pyLower ext)) = some f)
    (hcget : net.get (commitsApiUrl (urlParts u) f.path) = .exn) :
    get_repo_file_info net u r ext = ⟨sentinelDate, none⟩ ∧
    (∀ base u2 sm,
      assembleData base u2 (get_repo_file_info net u r ext) sm
        = dictSet (dictSet base "url" u2) "latest_update" sentinelDate) := by
  have hres := (claim_C8_thm.2.2.2 net u b fs f r ext hh hp hget hjson hfind hcget).1
  refine ⟨hres, ?_⟩
  intro base u2 sm
  rw [hres]
  rfl

/-- Witness for C10: with the commits request failing, the matched filename
`Game.valkyrie` is dropped and a statistics index for that very filename
injects nothing. -/
theorem claim_C10_wit :
    get_repo_file_info netC "https://raw.githubusercontent.com/u/r/main" 3 ".valkyrie"
      = ⟨sentinelDate, none⟩ ∧
    assembleData [("title", "T")] "https://raw.githubusercontent.com/u/r/main"
      (get_repo_file_info netC "https://raw.githubusercontent.com/u/r/main" 3 ".valkyrie")
      [("Game.valkyrie", [("scenario_avg_rating", "4.5")])]
      = dictSet (dictSet [("title", "T")] "url" "https://raw.githubusercontent.com/u/r/main")
          "latest_update" sentinelDate := by
  have h := claim_C10_thm netC "https://raw.githubusercontent.com/u/r/main" "LISTING"
    [⟨"Game.valkyrie", "Game.valkyrie", "dl"⟩] ⟨"Game.valkyrie", "Game.valkyrie", "dl"⟩
    3 ".valkyrie" (by decide) (by decide) (by decide) (by decide) (by decide) (by decide)
  exact ⟨h.1, h.2 [("title", "T")] "https://raw.githubusercontent.com/u/r/main"
    [("Game.valkyrie", [("scenario_avg_rating", "4.5")])]⟩

/-! ## Claim C9: metrics injection -/

/-- Claim C9 (confirmed): with a statistics index holding `rating` value `v`
under the matched filename (case-sensitive key), the assembled record's
`rating` field is exactly `v` (e.g. `"4.5"` for a JSON 4.5); when the
matched filename is not a key of the index, or no filename was matched, the
record's data is exactly the base plus `url` and `latest_update` — no
`rating` (or other metric) field is added. -/
theorem claim_C9_thm (sm : List (String × List (String × String)))
    (base : List (String × String)) (u2 : String) (repo : FileInfo) :
    (∀ f st v, repo.filename = some f → f ≠ "" → lookupKV sm f = some st →
      lookupKV st "scenario_avg_rating" = some v →
      lookupKV (assembleData base u2 repo sm) "rating" = some v) ∧
    (∀ f, repo.filename = some f → lookupKV sm f = none →
      assembleData base u2 repo sm
        = dictSet (dictSet base "url" u2) "latest_update" repo.date) ∧
    (repo.filename = none →
      assembleData base u2 repo sm
        = dictSet (dictSet base "url" u2) "latest_update" repo.date) := by
  refine ⟨?_, ?_, ?_⟩
  · intro f st v hf hfne hsm hst
    unfold assembleData injectStats
    rw [hf]
    simp only []
    rw [if_pos ⟨lookupKV_some_ne_nil hsm, hfne⟩, hsm]
    simp only [hst]
    rcases h2 : lookupKV st "scenario_play_count" with _ | v2 <;>
      rcases h3 : lookupKV st "scenario_avg_duration" with _ | v3 <;>
        rcases h4 : lookupKV st "scenario_avg_win_ratio" with _ | v4 <;>
          simp [h2, h3, h4, lookupKV_dictSet_ne, lookupKV_dictSet_self]
  · intro f hf hsm
    unfold assembleData injectStats
    rw [hf]
    simp only []
    by_cases hc : sm ≠ [] ∧ f ≠ ""
    · rw [if_pos hc, hsm]
    · rw [if_neg hc]
  · intro hf
    unfold assembleData injectStats
    rw [hf]

/-- Witness for C9: index `{"X.valkyrie": {scenario_avg_rating: 4.5}}` and
matched filename `X.valkyrie` yield `rating = "4.5"`; an unmatched filename
and an absent filename add nothing. -/
theorem claim_C9_wit :
    lookupKV (assembleData [("title", "T")] "http://u" ⟨"2021-01-01T00:00:00Z", some "X.valkyrie"⟩
      [("X.valkyrie", [("scenario_avg_rating", "4.5")])]) "rating" = some "4.5" ∧
    assembleData [("title", "T")] "http://u" ⟨"2021-01-01T00:00:00Z", some "Other.valkyrie"⟩
      [("X.valkyrie", [("scenario_avg_rating", "4.5")])]
      = dictSet (dictSet [("title", "T")] "url" "http://u") "latest_update"
          "2021-01-01T00:00:00Z" ∧
    assembleData [("title", "T")] "http://u" ⟨"2021-01-01T00:00:00Z", none⟩
      [("X.valkyrie", [("scenario_avg_rating", "4.5")])]
      = dictSet (dictSet [("title", "T")] "url" "http://u") "latest_update"
          "2021-01-01T00:00:00Z" := by
  refine ⟨?_, ?_, ?_⟩
  · exact (claim_C9_thm [("X.valkyrie", [("scenario_avg_rating", "4.5")])] [("title", "T")]
      "http://u" ⟨"2021-01-01T00:00:00Z", some "X.valkyrie"⟩).1 "X.valkyrie"
      [("scenario_avg_rating", "4.5")] "4.5" rfl (by decide) (by decide) (by decide)
  · exact (claim_C9_thm [("X.valkyrie", [("scenario_avg_rating", "4.5")])] [("title", "T")]
      "http://u" ⟨"2021-01-01T00:00:00Z", some "Other.valkyrie"⟩).2.1 "Other.valkyrie" rfl
      (by decide)
  · exact (claim_C9_thm [("X.valkyrie", [("scenario_avg_rating", "4.5")])] [("title", "T")]
      "http://u" ⟨"2021-01-01T00:00:00Z", none⟩).2.2 rfl

/-! ## Claims C1 and C2: the batch aggregator -/

/-- The writer catches the raised exception (lines 245-246), so it returns
normally whatever the file-system oracle does. -/
theorem write_ini_ok (fsW : String → Except PErr Unit) (scenarios : List Record) (cp : Bool) :
    write_manifest_download_ini fsW scenarios cp = .ok () := by
  unfold write_manifest_download_ini
  rcases fsW (serialize_manifest scenarios cp) with _ | _ <;> rfl

/-- Counterexample to claim C1 as stated: a batch run whose output write
raises (`failWriter` fails on every content) still terminates normally —
`process_manifest` returns `.ok` instead of propagating the exception,
because `write_manifest_download_ini` catches and merely logs it. -/
theorem claim_C1_cex :
    process_manifest netA [] "" failWriter = .ok ([], "# Generated with 0 scenarios\n")
      ∧ write_manifest_download_ini failWriter [] false = .ok () := by
  constructor <;> rfl

/-- Claim C1 (corrected): an exception inside the output-writing step is
caught inside `write_manifest_download_ini` (logged, lines 245-246) and
never propagates: the writer returns normally for every file-system
outcome, and the batch aggregator's result does not depend on the
file-system oracle at all. -/
theorem claim_C1_thm :
    (∀ (fsW : String → Except PErr Unit) (scenarios : List Record) (cp : Bool),
      write_manifest_download_ini fsW scenarios cp = .ok ()) ∧
    (∀ (net : Net) (sm : List (String × List (String × String))) (content : String)
      (fsW fsW' : String → Except PErr Unit),
      process_manifest net sm content fsW = process_manifest net sm content fsW') := by
  refine ⟨write_ini_ok, ?_⟩
  intro net sm content fsW fsW'
  unfold process_manifest
  rcases read_string content with _ | config
  · rfl
  · simp only []
    rw [write_ini_ok, write_ini_ok]

/-- The fold of `process_manifest` over the sections, rewritten as a
`filterMap`: a raising or skipping entry contributes nothing and leaves
every later entry untouched. -/
theorem procFold (net : Net) (config : Cfg) (sm : List (String × List (String × String)))
    (l : List String) (acc : List Record) :
    l.foldl (fun acc sect =>
      match process_scenario_section net sect config sm ".valkyrie" with
      | .ok (some sc) => acc ++ [sc]
      | .ok none => acc
      | .error _ => acc) acc
    = acc ++ l.filterMap (fun sect =>
        match process_scenario_section net sect config sm ".valkyrie" with
        | .ok (some sc) => some sc
        | .ok none => none
        | .error _ => none) := by
  induction l generalizing acc with
  | nil => simp
  | cons s t ih =>
    simp only [List.foldl_cons, List.filterMap_cons]
    rcases process_scenario_section net s config sm ".valkyrie" with e | o
    · simpa using ih acc
    · rcases o with _ | sc
      · simpa using ih acc
      · rw [ih (acc ++ [sc])]
        simp

/-- Claim C2 (confirmed): (1) whenever the catalogue parses, the batch
returns normally with exactly the per-entry `filterMap` of outcomes — an
entry that raises is skipped and cannot abort later entries, and the output
document is the serialization of the collected records; (2) a batch of
five entries where entry 3 raises (interpolation error on its `external`
value) still yields the remaining 4 records, in original relative order,
with `E3` absent; (3) a batch with zero successes still writes a
well-formed document whose header states count 0 and which re-parses to no
records. -/
theorem claim_C2_thm :
    (∀ (net : Net) (sm : List (String × List (String × String))) (content : String)
      (fsW : String → Except PErr Unit) (config : Cfg),
      read_string content = .ok config →
      process_manifest net sm content fsW
        = .ok (collectRecords net config sm,
            serialize_manifest (collectRecords net config sm) false)) ∧
    (process_manifest netA [] fiveEntryContent okWriter
      = .ok ([recE "E1" "http://h/a", recE "E2" "http://h/b",
              recE "E4" "http://h/d", recE "E5" "http://h/e"],
          serialize_manifest [recE "E1" "http://h/a", recE "E2" "http://h/b",
              recE "E4" "http://h/d", recE "E5" "http://h/e"] false) ∧
      process_scenario_section netA "E3"
        ⟨[], [("E1", [("external", "http://h/a")]), ("E2", [("external", "http://h/b")]),
              ("E3", [("external", "http://h/%")]), ("E4", [("external", "http://h/d")]),
              ("E5", [("external", "http://h/e")])]⟩ [] ".valkyrie"
        = .error .interpSyntax) ∧
    (process_manifest netA [] "[A]\nx=1\n" okWriter
      = .ok ([], "# Generated with 0 scenarios\n") ∧
      read_string "# Generated with 0 scenarios\n" = .ok ⟨[], []⟩) := by
  refine ⟨?_, ⟨?_, ?_⟩, ?_, ?_⟩
  · intro net sm content fsW config hparse
    unfold process_manifest
    rw [hparse]
    simp only []
    rw [write_ini_ok, procFold]
    rfl
  · decide
  · decide
  · decide
  · decide

/-! ## Line-splitting and trimming lemmas -/

theorem splitOnNl_ne_nil : ∀ t : List Char, splitOnNl t ≠ []
  | [] => by simp [splitOnNl]
  | c :: t => by
    rw [splitOnNl]
    split
    · simp
    · rcases h : splitOnNl t with _ | ⟨h1, r⟩ <;> simp

theorem splitOnNl_append_nl {a : List Char} (ha : ∀ c ∈ a, c ≠ '\n') (b : List Char) :
    splitOnNl (a ++ '\n' :: b) = a :: splitOnNl b := by
  induction a with
  | nil =>
    simp only [List.nil_append]
    rw [splitOnNl, if_pos rfl]
  | cons c t ih =>
    have hc : c ≠ '\n' := ha c (by simp)
    have ih' := ih (fun x hx => ha x (by simp [hx]))
    simp only [List.cons_append]
    rw [splitOnNl, if_neg hc, ih']

theorem trimL_cons {c : Char} (t : List Char) (hc : ¬ c.isWhitespace) :
    trimL (c :: t) = c :: t := by
  simp [trimL, List.dropWhile_cons, hc]

theorem trimR_cons {c : Char} (hc : ¬ c.isWhitespace) (t : List Char) :
    trimR (c :: t) = c :: trimR t := by
  unfold trimR
  rw [List.reverse_cons, List.dropWhile_append]
  split
  · next hemp =>
    simp only [List.isEmpty_iff] at hemp
    rw [hemp]
    simp [List.dropWhile_cons, hc]
  · simp

theorem trimR_append_last {a b : List Char} (hb : b ≠ []) (h : trimR b = b) :
    trimR (a ++ b) = a ++ b := by
  unfold trimR at *
  rw [List.reverse_append, List.dropWhile_append]
  have hrev : b.reverse.dropWhile Char.isWhitespace = b.reverse := by
    have := congrArg List.reverse h
    simpa using this
  rw [hrev]
  have : b.reverse.isEmpty = false := by
    simp [List.isEmpty_iff, hb]
  rw [this]
  simp

theorem trimB_cons {c : Char} (hc : ¬ c.isWhitespace) (t : List Char) :
    trimB (c :: t) = c :: trimR t := by
  unfold trimB
  rw [trimL_cons t hc, trimR_cons hc]

theorem trimR_append_nl {v : List Char} (h : trimR v = v) : trimR (v ++ ['\n']) = v := by
  unfold trimR at *
  rw [List.reverse_append]
  simp only [List.reverse_cons, List.reverse_nil, List.nil_append, List.singleton_append]
  rw [List.dropWhile_cons]
  simp only [show Char.isWhitespace '\n' = true from rfl, if_true]
  have := congrArg List.reverse h
  simp only [List.reverse_reverse] at this
  rw [this]
  simp

/-! ## The decimal rendering of a `Nat` contains no newline -/

theorem digitChar_ne_nl (m : Nat) : Nat.digitChar m ≠ '\n' := by
  rcases Nat.lt_or_ge m 16 with hm | hm
  · interval_cases m <;> decide
  · unfold Nat.digitChar
    iterate 16 rw [if_neg (by omega)]
    decide

theorem toDigitsCore_ne_nl :
    ∀ (fuel n : Nat) (acc : List Char), (∀ c ∈ acc, c ≠ '\n') →
      ∀ c ∈ Nat.toDigitsCore 10 fuel n acc, c ≠ '\n' := by
  intro fuel
  induction fuel with
  | zero => intro n acc hacc c hc; exact hacc c hc
  | succ f ih =>
    intro n acc hacc c hc
    rw [Nat.toDigitsCore] at hc
    split at hc
    · rcases List.mem_cons.1 hc with hc | hc
      · rw [hc]; exact digitChar_ne_nl _
      · exact hacc c hc
    · refine ih _ _ ?_ c hc
      intro x hx
      rcases List.mem_cons.1 hx with hx | hx
      · rw [hx]; exact digitChar_ne_nl _
      · exact hacc x hx

theorem toString_nat_ne_nl (n : Nat) : ∀ c ∈ (toString n).data, c ≠ '\n' := by
  intro c hc
  have hrepr : (toString n).data = Nat.toDigitsCore 10 (n + 1) n [] := rfl
  rw [hrepr] at hc
  exact toDigitsCore_ne_nl (n + 1) n [] (by simp) c hc

/-! ## Single-line reader steps -/

theorem leadingWs_cons {c : Char} {t : List Char} (hc : ¬ c.isWhitespace) :
    ((c :: t).takeWhile Char.isWhitespace).length = 0 := by
  simp [List.takeWhile_cons, hc]

theorem sectHeader?_mk {n : List Char} (hn : n ≠ []) :
    sectHeader? ('[' :: n ++ [']']) = some n := by
  show (match ('[' :: n ++ [']'] : List Char) with
    | '[' :: rest =>
      match rest.reverse.dropWhile (· ≠ ']') with
      | ']' :: coreR => if coreR = [] then none else some coreR.reverse
      | _ => none
    | _ => none) = some n
  simp only [List.cons_append]
  rw [show ((n ++ [']']).reverse.dropWhile (· ≠ ']')) = ']' :: n.reverse by
    rw [List.reverse_append]
    simp [List.dropWhile_cons]]
  simp only []
  rw [if_neg (by simpa using hn)]
  simp

theorem sectHeader?_not_bracket {l : List Char} (h : l.headD ' ' ≠ '[') :
    sectHeader? l = none := by
  unfold sectHeader?
  split
  · next rest => simp at h
  · rfl

theorem trimR_append_mid {a : List Char} {c : Char} (hc : ¬ c.isWhitespace)
    {v : List Char} (hv : trimR v = v) : trimR (a ++ c :: v) = a ++ c :: v := by
  rw [List.append_cons]
  rcases hve : v with _ | ⟨v0, vt⟩
  · subst hve
    simpa using trimR_append_last (a := a) (b := [c]) (by simp)
      (by simp [trimR, List.dropWhile_cons, hc])
  · rw [← hve]
    have hvne : v ≠ [] := by rw [hve]; simp
    rw [trimR_append_last hvne hv]

theorem optLine?_mk {k v : List Char} (hk : ∀ c ∈ k, ¬(c = '=' ∨ c = ':'))
    (hkR : trimR k = k) (hvL : trimL v = v) (hvR : trimR v = v) :
    optLine? (k ++ '=' :: v) = some (k, v) := by
  unfold optLine?
  have hall : k.takeWhile (fun c => ¬(c = '=' ∨ c = ':')) = k := by
    rw [List.takeWhile_eq_self_iff]
    intro a ha
    simpa using hk a ha
  have htake : (k ++ '=' :: v).takeWhile (fun c => ¬(c = '=' ∨ c = ':')) = k := by
    rw [List.takeWhile_append, hall]
    simp [List.takeWhile_cons]
  rw [htake]
  show (match (k ++ '=' :: v).drop k.length with
    | _ :: rest => some (trimR k, trimB rest)
    | [] => none) = some (k, v)
  rw [List.drop_left k ('=' :: v)]
  simp only [hkR]
  unfold trimB
  rw [hvL, hvR]

theorem pstep_comment (st : RS) (t : List Char) : pstep st ('#' :: t) = .ok st := by
  simp only [pstep]
  rw [trimB_cons (by decide) t]
  rw [if_neg (by simp)]
  rw [if_pos (by simp)]

theorem pstep_section {d : List (List Char × List (List Char))}
    {s : List (List Char × List (List Char × List (List Char)))}
    {c : CurSec} {o : Option (List Char)} {i : Nat} {n : List Char}
    (hn : n ≠ []) (hdup : s.any (·.1 = n) = false) (hdef : n ≠ "DEFAULT".data) :
    pstep ⟨d, s, c, o, i⟩ ('[' :: n ++ [']'])
      = .ok ⟨d, s ++ [(n, [])], .named n, none, 0⟩ := by
  simp only [pstep, List.cons_append]
  rw [show trimB ('[' :: (n ++ [']'])) = '[' :: (n ++ [']']) by
    rw [trimB_cons (by decide), trimR_append_last (by simp) (by decide)]]
  rw [if_neg (by simp)]
  rw [if_neg (by simp)]
  rw [leadingWs_cons (by decide)]
  rw [if_neg (by simp)]
  rw [show ('[' :: (n ++ [']'])) = ('[' :: n ++ [']']) by simp, sectHeader?_mk hn]
  simp only []
  rw [if_neg (by rw [hdup]; simp), if_neg hdef]

theorem pstep_option {d : List (List Char × List (List Char))}
    {s : List (List Char × List (List Char × List (List Char)))}
    {n : List Char} {o : Option (List Char)} {i : Nat} {k v : List Char}
    (hk : ∀ c ∈ k, ¬(c = '=' ∨ c = ':'))
    (hkne : k ≠ []) (hkR : trimR k = k)
    (hkhead : ¬ (k.headD ' ').isWhitespace)
    (hknosec : k.headD ' ' ≠ '[') (hkcom : k.headD ' ' ≠ '#') (hkcom2 : k.headD ' ' ≠ ';')
    (hvL : trimL v = v) (hvR : trimR v = v)
    (hdup : (((s.find? (·.1 = n)).map (fun e => e.2.any (·.1 = k))).getD false) = false) :
    pstep ⟨d, s, .named n, o, i⟩ (k ++ '=' :: v)
      = .ok ⟨d,
          s.map (fun e => if e.1 = n then (e.1, e.2 ++ [(k, [v])]) else e),
          .named n, some k, 0⟩ := by
  rcases k with _ | ⟨kc, kt⟩
  · exact absurd rfl hkne
  simp only [List.headD_cons] at hkhead hknosec hkcom hkcom2
  simp only [pstep, List.cons_append]
  rw [show trimB (kc :: (kt ++ '=' :: v)) = kc :: (kt ++ '=' :: v) by
    rw [trimB_cons hkhead, trimR_append_mid (by decide) hvR]]
  rw [if_neg (by simp)]
  rw [if_neg (by simp [hkcom, hkcom2])]
  rw [leadingWs_cons hkhead]
  rw [if_neg (by simp)]
  rw [sectHeader?_not_bracket (by simpa using hknosec)]
  simp only []
  rw [show (kc :: (kt ++ '=' :: v)) = ((kc :: kt) ++ '=' :: v) by simp,
    optLine?_mk hk hkR hvL hvR]
  simp only [optExists]
  rw [if_neg (by rw [hdup]; simp)]
  rfl

/-! ## Reader-state composition lemmas -/

theorem readAux_cons {st st' : RS} {l : List Char} {ls : List (List Char)}
    (h : pstep st l = .ok st') : readAux st (l :: ls) = readAux st' ls := by
  simp [readAux, h]

theorem find?_last {β : Type} {S : List (List Char × β)} {n : List Char} {acc : β}
    (h : S.any (·.1 = n) = false) :
    (S ++ [(n, acc)]).find? (·.1 = n) = some (n, acc) := by
  rw [List.find?_append]
  have hnone : S.find? (·.1 = n) = none := by
    rw [List.find?_eq_none]
    intro x hx hpx
    have : S.any (·.1 = n) = true := List.any_eq_true.mpr ⟨x, hx, hpx⟩
    rw [h] at this
    exact absurd this (by simp)
  rw [hnone]
  simp [List.find?]

theorem map_update_last {β : Type} {S : List (List Char × β)} {n : List Char} {acc : β}
    (h : S.any (·.1 = n) = false) (f : β → β) :
    (S ++ [(n, acc)]).map (fun s => if s.1 = n then (s.1, f s.2) else s)
      = S ++ [(n, f acc)] := by
  rw [List.map_append]
  congr 1
  · induction S with
    | nil => rfl
    | cons s t ih =>
      rw [List.any_cons, Bool.or_eq_false_iff] at h
      simp only [List.map_cons]
      rw [if_neg (by simpa using h.1), ih h.2]
  · simp

theorem pstep_blank_none {dflt : List (List Char × List (List Char))}
    {secs : List (List Char × List (List Char × List (List Char)))}
    {cur : CurSec} {ind : Nat} :
    pstep ⟨dflt, secs, cur, none, ind⟩ [] = .ok ⟨dflt, secs, cur, none, ind⟩ := by
  simp only [pstep, show trimB ([] : List Char) = [] from rfl]
  rw [if_pos trivial]
  rw [if_neg (by simp [optActive])]

theorem pstep_blank_some {dflt : List (List Char × List (List Char))}
    {secs : List (List Char × List (List Char × List (List Char)))}
    {n : List Char} {k : List Char} {ind : Nat} (hk : k ≠ []) :
    pstep ⟨dflt, secs, .named n, some k, ind⟩ []
      = .ok ⟨dflt,
          secs.map (fun s => if s.1 = n then
            (s.1, s.2.map fun p => if p.1 = k then (p.1, p.2 ++ [[]]) else p) else s),
          .named n, some k, ind⟩ := by
  simp only [pstep, show trimB ([] : List Char) = [] from rfl]
  rw [if_pos trivial]
  rw [if_pos ⟨by simp [optActive, hk], by simp⟩]
  rfl

theorem readAux_opts {dflt : List (List Char × List (List Char))}
    {S : List (List Char × List (List Char × List (List Char)))} {n : List Char}
    (hS : S.any (·.1 = n) = false) :
    ∀ (ps : List (String × String)) (acc : List (List Char × List (List Char)))
      (opt : Option (List Char)) (rest : List (List Char)),
      (∀ kv ∈ ps, wfKeyP kv.1 ∧ wfValP kv.2) →
      (ps.map (fun kv => kv.1.data)).Nodup →
      (∀ kv ∈ ps, acc.any (·.1 = kv.1.data) = false) →
      readAux ⟨dflt, S ++ [(n, acc)], .named n, opt, 0⟩ (ps.map lineOf ++ rest)
        = readAux ⟨dflt,
            S ++ [(n, acc ++ ps.map (fun kv => (kv.1.data, [kv.2.data])))],
            .named n, lastKeyOpt ps opt, 0⟩ rest := by
  intro ps
  induction ps with
  | nil =>
    intro acc opt rest _ _ _
    simp [lastKeyOpt]
  | cons kv t ih =>
    intro acc opt rest hwf hnd hacc
    rw [List.map_cons, List.nodup_cons] at hnd
    have hwf0 := hwf kv (by simp)
    rcases hwf0 with ⟨⟨hkne, hkchars, hkR, hkhead, hknosec, hkcom, hkcom2⟩, hv⟩
    have hstep := pstep_option (d := dflt) (s := S ++ [(n, acc)]) (n := n)
      (o := opt) (i := 0) (k := kv.1.data) (v := kv.2.data)
      (fun c hc => by
        have h := hkchars c hc
        rintro (h1 | h1)
        · exact h.2.1 h1
        · exact h.2.2 h1)
      hkne hkR hkhead hknosec hkcom hkcom2 hv.2.1 hv.2.2
      (by rw [find?_last hS]
          simpa using hacc kv (by simp))
    simp only [List.map_cons, List.cons_append, lineOf]
    rw [readAux_cons hstep,
      map_update_last hS (fun os => os ++ [(kv.1.data, [kv.2.data])])]
    rw [ih (acc ++ [(kv.1.data, [kv.2.data])]) (some kv.1.data) rest
      (fun x hx => hwf x (by simp [hx])) hnd.2 ?_]
    · simp [lastKeyOpt]
    · intro x hx
      rw [List.any_append]
      have h1 : acc.any (·.1 = x.1.data) = false := hacc x (by simp [hx])
      have h2 : ([(kv.1.data, [kv.2.data])] : List (List Char × List (List Char))).any
          (·.1 = x.1.data) = false := by
        simp only [List.any_cons, List.any_nil]
        have hne : kv.1.data ≠ x.1.data := by
          intro hEq
          exact hnd.1 (List.mem_map.mpr ⟨x, hx, hEq.symm⟩)
        simp [hne]
      rw [h1, h2]
      rfl

theorem strData_inj {a b : String} (h : a.data = b.data) : a = b := by
  cases a
  cases b
  cases h
  rfl

theorem lastKeyOpt_ignore : ∀ (ps : List (String × String)) (o o' : Option (List Char)),
    ps ≠ [] → lastKeyOpt ps o = lastKeyOpt ps o'
  | [], _, _, h => absurd rfl h
  | _ :: _, _, _, _ => rfl

theorem store_after_blank : ∀ (ps : List (String × String)),
    (ps.map (fun kv => kv.1.data)).Nodup →
    (∀ kv ∈ ps, kv.1.data ≠ []) → ps ≠ [] →
    ∃ k, lastKeyOpt ps none = some k ∧ k ≠ [] ∧ k ∈ ps.map (fun kv => kv.1.data) ∧
      (ps.map (fun kv => (kv.1.data, [kv.2.data]))).map
        (fun p => if p.1 = k then (p.1, p.2 ++ [[]]) else p) = storeData ps := by
  intro ps
  induction ps with
  | nil => intro _ _ h; exact absurd rfl h
  | cons kv t ih =>
    intro hnd hne _
    rcases t with _ | ⟨kv2, t2⟩
    · refine ⟨kv.1.data, rfl, hne kv (by simp), by simp, ?_⟩
      have hred : storeData [kv] = [(kv.1.data, [kv.2.data, []])] := rfl
      rw [hred]
      simp
    · rw [List.map_cons, List.nodup_cons] at hnd
      obtain ⟨k, hk1, hk2, hk3, hk4⟩ := ih hnd.2 (fun x hx => hne x (by simp [hx])) (by simp)
      have hhead : kv.1.data ≠ k := by
        intro hEq
        exact hnd.1 (hEq ▸ hk3)
      refine ⟨k, ?_, hk2, ?_, ?_⟩
      · rw [show lastKeyOpt (kv :: kv2 :: t2) none
            = lastKeyOpt (kv2 :: t2) (some kv.1.data) from rfl,
          lastKeyOpt_ignore (kv2 :: t2) (some kv.1.data) none (by simp)]
        exact hk1
      · rw [List.map_cons]
        exact List.mem_cons_of_mem _ hk3
      · simp only [List.map_cons] at hk4 ⊢
        rw [hk4]
        rw [show storeData (kv :: kv2 :: t2)
            = (kv.1.data, [kv.2.data]) :: storeData (kv2 :: t2) from rfl]
        simp [hhead]

theorem readAux_recBlock {dflt : List (List Char × List (List Char))}
    {S : List (List Char × List (List Char × List (List Char)))}
    {cur : CurSec} {opt : Option (List Char)} {ind : Nat} {r : Record}
    {rest : List (List Char)}
    (hwf : wfRecordP r) (hS : S.any (·.1 = r.name.data) = false) :
    readAux ⟨dflt, S, cur, opt, ind⟩ (recLines r ++ rest)
      = readAux ⟨dflt, S ++ [(r.name.data, storeData r.data)], .named r.name.data,
          lastKeyOpt r.data none, 0⟩ rest := by
  rcases hwf with ⟨⟨hnne, hnnl, hndef⟩, hkv, hnd⟩
  have hsec := pstep_section (d := dflt) (s := S) (c := cur) (o := opt)
    (i := ind) (n := r.name.data) hnne hS
    (fun h => hndef (strData_inj (by simpa using h)))
  unfold recLines
  rw [List.cons_append, readAux_cons hsec]
  rw [show (r.data.map lineOf ++ [[]]) ++ rest = r.data.map lineOf ++ ([] :: rest) by simp]
  have hndd : (r.data.map (fun kv => kv.1.data)).Nodup := by
    have : r.data.map (fun kv => kv.1.data) = (r.data.map (·.1)).map String.data := by
      simp
    rw [this]
    exact hnd.map (fun a b h => strData_inj h)
  rw [readAux_opts hS r.data [] none ([] :: rest) hkv hndd (by simp)]
  simp only [List.nil_append]
  rcases hps : r.data with _ | ⟨kv0, t0⟩
  · rw [show lastKeyOpt ([] : List (String × String)) none = none from rfl,
      readAux_cons pstep_blank_none]
    rfl
  · rw [← hps]
    have hpsne : r.data ≠ [] := by rw [hps]; simp
    obtain ⟨k, hk1, hk2, _, hk4⟩ := store_after_blank r.data hndd
      (fun x hx => ((hkv x hx).1).1) hpsne
    rw [hk1, readAux_cons (pstep_blank_some hk2)]
    rw [map_update_last hS
      (fun os => os.map fun p => if p.1 = k then (p.1, p.2 ++ [[]]) else p)]
    rw [hk4]

theorem readAux_blocks {dflt : List (List Char × List (List Char))} :
    ∀ (rs : List Record) (S : List (List Char × List (List Char × List (List Char))))
      (cur : CurSec) (opt : Option (List Char)) (ind : Nat) (rest : List (List Char)),
      (∀ r ∈ rs, wfRecordP r) → ((rs.map (·.name)).Nodup) →
      (∀ r ∈ rs, S.any (·.1 = r.name.data) = false) →
      ∃ cur' opt' ind',
        readAux ⟨dflt, S, cur, opt, ind⟩ ((rs.map recLines).flatten ++ rest)
          = readAux ⟨dflt, S ++ rs.map (fun r => (r.name.data, storeData r.data)),
              cur', opt', ind'⟩ rest := by
  intro rs
  induction rs with
  | nil =>
    intro S cur opt ind rest _ _ _
    exact ⟨cur, opt, ind, by simp⟩
  | cons r t ih =>
    intro S cur opt ind rest hwf hnd hS
    rw [List.map_cons, List.nodup_cons] at hnd
    simp only [List.map_cons, List.flatten_cons, List.append_assoc]
    rw [readAux_recBlock (hwf r (by simp)) (hS r (by simp))]
    obtain ⟨cur', opt', ind', hrec⟩ := ih (S ++ [(r.name.data, storeData r.data)])
      (.named r.name.data) (lastKeyOpt r.data none) 0 rest
      (fun x hx => hwf x (by simp [hx])) hnd.2
      (fun x hx => by
        rw [List.any_append]
        have h1 : S.any (·.1 = x.name.data) = false := hS x (by simp [hx])
        have h2 : ([(r.name.data, storeData r.data)] :
            List (List Char × List (List Char × List (List Char)))).any
              (·.1 = x.name.data) = false := by
          simp only [List.any_cons, List.any_nil]
          have : r.name.data ≠ x.name.data := by
            intro hEq
            exact hnd.1 (List.mem_map.mpr ⟨x, hx, (strData_inj hEq).symm⟩)
          simp [this]
        rw [h1, h2]
        rfl)
    exact ⟨cur', opt', ind', by rw [hrec]; simp⟩

/-! ## The physical lines of a serialized manifest -/

theorem splitOnNl_dataLines :
    ∀ (ps : List (String × String)), (∀ kv ∈ ps, wfKeyP kv.1 ∧ wfValP kv.2) →
      ∀ (tail : List Char),
        splitOnNl ((dataLinesStr ps).data ++ tail) = ps.map lineOf ++ splitOnNl tail := by
  intro ps
  induction ps with
  | nil => intro _ tail; simp [dataLinesStr]
  | cons kv t ih =>
    intro hwf tail
    obtain ⟨hk, hv⟩ := hwf kv (by simp)
    have hchars : ∀ c ∈ lineOf kv, c ≠ '\n' := by
      intro c hc
      unfold lineOf at hc
      rcases List.mem_append.1 hc with h | h
      · exact (hk.2.1 c h).1
      · rcases List.mem_cons.1 h with h | h
        · rw [h]; decide
        · exact (hv.1 c h).1
    show splitOnNl ((kv.1 ++ "=" ++ kv.2 ++ "\n" ++ dataLinesStr t).data ++ tail)
      = lineOf kv :: (t.map lineOf ++ splitOnNl tail)
    have hdata : (kv.1 ++ "=" ++ kv.2 ++ "\n" ++ dataLinesStr t).data ++ tail
        = lineOf kv ++ '\n' :: ((dataLinesStr t).data ++ tail) := by
      simp [String.data_append, lineOf]
    rw [hdata, splitOnNl_append_nl hchars, ih (fun x hx => hwf x (by simp [hx])) tail]

theorem splitOnNl_blocks :
    ∀ (rs : List Record), (∀ r ∈ rs, wfRecordP r) →
      splitOnNl (blocksStr rs).data = (rs.map recLines).flatten ++ [[]] := by
  intro rs
  induction rs with
  | nil => simp [blocksStr, splitOnNl]
  | cons r t ih =>
    intro hwf
    obtain ⟨⟨hnne, hnnl, _⟩, hkv, _⟩ := hwf r (by simp)
    show splitOnNl ("[" ++ r.name ++ "]\n" ++ dataLinesStr r.data ++ "\n" ++ blocksStr t).data
      = ((recLines r :: t.map recLines).flatten) ++ [[]]
    have hdata : ("[" ++ r.name ++ "]\n" ++ dataLinesStr r.data ++ "\n" ++ blocksStr t).data
        = ('[' :: r.name.data ++ [']']) ++ '\n'
            :: ((dataLinesStr r.data).data ++ '\n' :: (blocksStr t).data) := by
      simp [String.data_append]
    rw [hdata, splitOnNl_append_nl (by
      intro c hc
      rcases List.mem_cons.1 hc with h | h
      · rw [h]; decide
      · rcases List.mem_append.1 h with h | h
        · exact hnnl c h
        · rcases List.mem_cons.1 h with h | h
          · rw [h]; decide
          · simp at h)]
    rw [splitOnNl_dataLines r.data hkv ('\n' :: (blocksStr t).data),
      show splitOnNl ('\n' :: (blocksStr t).data) = [] :: splitOnNl (blocksStr t).data by
        rw [splitOnNl, if_pos rfl]]
    rw [ih (fun x hx => hwf x (by simp [hx]))]
    simp [recLines]

theorem headerChars_no_nl (count : Nat) (cp : Bool) : ∀ c ∈ headerChars count cp, c ≠ '\n' := by
  have h1 : ∀ x ∈ "# Generated with ".data, x ≠ '\n' := by decide
  have h2 : ∀ x ∈ " content packs".data, x ≠ '\n' := by decide
  have h3 : ∀ x ∈ " scenarios".data, x ≠ '\n' := by decide
  intro c hc
  unfold headerChars at hc
  rcases List.mem_append.1 hc with h | h
  · rcases List.mem_append.1 h with h | h
    · exact h1 c h
    · exact toString_nat_ne_nl count c h
  · rcases cp with _ | _
    · exact h3 c (by simpa using h)
    · exact h2 c (by simpa using h)

theorem pyLines_serialize (rs : List Record) (cp : Bool) (hwf : ∀ r ∈ rs, wfRecordP r) :
    pyLines (serialize_manifest rs cp).data
      = headerChars rs.length cp :: (rs.map recLines).flatten := by
  have hdata : (serialize_manifest rs cp).data
      = headerChars rs.length cp ++ '\n' :: (blocksStr rs).data := by
    unfold serialize_manifest headerChars
    simp [String.data_append]
  unfold pyLines
  rw [hdata, splitOnNl_append_nl (headerChars_no_nl rs.length cp), splitOnNl_blocks rs hwf]
  simp only []
  rw [show headerChars rs.length cp :: ((rs.map recLines).flatten ++ [[]])
      = (headerChars rs.length cp :: (rs.map recLines).flatten) ++ [[]] by simp]
  rw [List.getLast?_concat, List.dropLast_concat]
  simp

/-! ## Finishing the stored state back into records -/

theorem finishVal_single {v : String} (hvR : trimR v.data = v.data) :
    finishVal [v.data] = v := by
  unfold finishVal
  rw [show (List.map (fun l => (⟨l⟩ : String)) [v.data]) = [(⟨v.data⟩ : String)] from rfl]
  rw [show joinWith "\n" [(⟨v.data⟩ : String)] = (⟨v.data⟩ : String) from rfl]
  show (⟨trimR v.data⟩ : String) = v
  rw [hvR]

theorem finishVal_pair {v : String} (hvR : trimR v.data = v.data) :
    finishVal [v.data, []] = v := by
  unfold finishVal
  rw [show (List.map (fun l => (⟨l⟩ : String)) [v.data, ([] : List Char)])
      = [(⟨v.data⟩ : String), (⟨[]⟩ : String)] from rfl]
  rw [show joinWith "\n" [(⟨v.data⟩ : String), (⟨[]⟩ : String)]
      = (⟨v.data⟩ : String) ++ "\n" ++ (⟨[]⟩ : String) from rfl]
  have hdata : ((⟨v.data⟩ : String) ++ "\n" ++ (⟨[]⟩ : String)).data = v.data ++ ['\n'] := by
    simp [String.data_append]
  rw [hdata, trimR_append_nl hvR]

theorem storeData_finish : ∀ (ps : List (String × String)), (∀ kv ∈ ps, wfValP kv.2) →
    (storeData ps).map (fun p => ((⟨p.1⟩ : String), finishVal p.2)) = ps
  | [], _ => rfl
  | [kv], h => by
    have hv := (h kv (by simp)).2.2
    rw [show storeData [kv] = [(kv.1.data, [kv.2.data, []])] from rfl]
    simp only [List.map_cons, List.map_nil]
    rw [finishVal_pair hv]
  | kv :: kv2 :: t, h => by
    have hv := (h kv (by simp)).2.2
    rw [show storeData (kv :: kv2 :: t) = (kv.1.data, [kv.2.data]) :: storeData (kv2 :: t)
      from rfl]
    simp only [List.map_cons]
    rw [finishVal_single hv, storeData_finish (kv2 :: t) (fun x hx => h x (by simp [hx]))]

/-- Re-reading the serialized manifest recovers the raw document exactly:
the header comment is skipped and every record's section holds its fields
in order, with the raw stored values equal to the originals. -/
theorem read_serialize (rs : List Record) (cp : Bool) (hwf : wfBatchP rs) :
    read_string (serialize_manifest rs cp) = .ok ⟨[], rs.map (fun r => (r.name, r.data))⟩ := by
  unfold read_string
  rw [pyLines_serialize rs cp hwf.1]
  have hh : headerChars rs.length cp = '#' :: (" Generated with ".data
      ++ ((toString rs.length).data
        ++ (if cp then " content packs" else " scenarios").data)) := by
    unfold headerChars
    simp
  rw [hh, readAux_cons (pstep_comment initRS _)]
  obtain ⟨cur', opt', ind', hblocks⟩ := readAux_blocks rs [] .noSec none 0 []
    hwf.1 hwf.2 (by simp)
  rw [show (rs.map recLines).flatten = (rs.map recLines).flatten ++ [] by simp]
  rw [show initRS = (⟨[], [], .noSec, none, 0⟩ : RS) from rfl, hblocks]
  show Except.ok (finishRS ⟨[], [] ++ rs.map (fun r => (r.name.data, storeData r.data)),
    cur', opt', ind'⟩) = _
  unfold finishRS
  simp only [List.nil_append, List.map_nil]
  congr 1
  congr 1
  rw [show (rs.map (fun r => (r.name.data, storeData r.data))).map
        (fun s => ((⟨s.1⟩ : String), s.2.map (fun p => ((⟨p.1⟩ : String), finishVal p.2))))
      = rs.map (fun r => ((⟨r.name.data⟩ : String),
          (storeData r.data).map (fun p => ((⟨p.1⟩ : String), finishVal p.2)))) by
    rw [List.map_map]
    rfl]
  apply List.map_congr_left
  intro r hr
  have hwfr := hwf.1 r hr
  rw [storeData_finish r.data (fun kv hkv => (hwfr.2.1 kv hkv).2)]

/-! ## Interpolation is the identity on percent-free values -/

theorem interpScanF_no_pct (lk : String → Option String)
    (expand : List Char → Except PErr (List Char)) :
    ∀ (sf : Nat) (l : List Char), l.length ≤ sf → l.contains '%' = false →
      interpScanF lk expand sf l = .ok l := by
  intro sf
  induction sf with
  | zero =>
    intro l hl _
    rcases l with _ | ⟨c, t⟩
    · rfl
    · simp at hl
  | succ n ih =>
    intro l hl hp
    rcases l with _ | ⟨c, t⟩
    · rfl
    · rw [List.contains_cons, Bool.or_eq_false_iff] at hp
      have hcne : c ≠ '%' := by
        have h0 := hp.1
        intro hEq
        rw [hEq] at h0
        simp at h0
      have hlen : t.length ≤ n := by simpa using hl
      unfold interpScanF
      split
      · next heq => omega
      · next heq1 heq2 => simp_all
      · next heq1 heq2 => simp_all
      · next sf2 c2 rest2 hne heq1 heq2 =>
        injection heq2 with e1 e2
        subst e1
        subst e2
        injection heq1 with e3
        subst e3
        rw [ih t hlen hp.2]
        rfl

theorem interpBeforeGet_no_pct (lk : String → Option String) (v : String)
    (hp : v.data.contains '%' = false) : interpBeforeGet lk v = .ok v := by
  unfold interpBeforeGet
  rw [show interpD lk 10 v.data
      = interpScanF lk (interpD lk 9) v.data.length v.data from rfl]
  rw [interpScanF_no_pct lk (interpD lk 9) v.data.length v.data le_rfl hp]
  rfl

theorem wfValP_no_pct {v : String} (hv : wfValP v) : v.data.contains '%' = false := by
  rcases hc : v.data.contains '%' with _ | _
  · rfl
  · exact absurd rfl ((hv.1 '%' (List.mem_of_elem_eq_true hc)).2)

/-! ## Reading every section's items -/

theorem mapM_ok_map {α β γ : Type} (f : β → Except PErr γ) (h : α → β) (g : α → γ) :
    ∀ l : List α, (∀ x ∈ l, f (h x) = .ok (g x)) → (l.map h).mapM f = .ok (l.map g) := by
  intro l
  induction l with
  | nil => intro _; rfl
  | cons x t ih =>
    intro hall
    rw [List.map_cons, List.mapM_cons, hall x (by simp), ih (fun y hy => hall y (by simp [hy]))]
    rfl

theorem mergedItems_nil (own : List (String × String)) : mergedItems [] own = own := by
  unfold mergedItems
  simp [lookupKV]

theorem lookupKV_of_nodup {rs : List Record} (hnd : (rs.map (·.name)).Nodup)
    {r : Record} (hr : r ∈ rs) :
    lookupKV (rs.map (fun x => (x.name, x.data))) r.name = some r.data := by
  induction rs with
  | nil => simp at hr
  | cons a t ih =>
    rw [List.map_cons, List.nodup_cons] at hnd
    rcases List.mem_cons.1 hr with h | h
    · subst h
      rw [List.map_cons, lookupKV, List.find?_cons_of_pos _ (by simp)]
      rfl
    · have hne : (a.name == r.name) = false := by
        have : a.name ≠ r.name := fun hEq => hnd.1 (hEq ▸ List.mem_map.mpr ⟨r, h, rfl⟩)
        simpa using this
      rw [List.map_cons, lookupKV, List.find?_cons_of_neg _ (by simp [hne])]
      exact ih hnd.2 h

theorem mapM_ok_id {α γ : Type} (f : α → Except PErr γ) (g : α → γ) :
    ∀ l : List α, (∀ x ∈ l, f x = .ok (g x)) → l.mapM f = .ok (l.map g) := by
  intro l
  induction l with
  | nil => intro _; rfl
  | cons x t ih =>
    intro hall
    rw [List.mapM_cons, hall x (by simp), ih (fun y hy => hall y (by simp [hy]))]
    rfl

theorem cfgPairs_of_wf (rs : List Record) (hwf : wfBatchP rs) :
    cfgPairs ⟨[], rs.map (fun r => (r.name, r.data))⟩
      = .ok (rs.map (fun r => (r.name, r.data))) := by
  unfold cfgPairs
  simp only [List.map_map]
  refine mapM_ok_map _ _ _ rs (fun r hr => ?_)
  have hitems : sectionItemsInterp ⟨[], rs.map (fun x => (x.name, x.data))⟩ r.name
      = .ok r.data := by
    unfold sectionItemsInterp
    rw [show (⟨[], rs.map (fun x => (x.name, x.data))⟩ : Cfg).secs
        = rs.map (fun x => (x.name, x.data)) from rfl]
    rw [lookupKV_of_nodup hwf.2 hr]
    simp only []
    rw [mergedItems_nil]
    rw [mapM_ok_id _ id r.data (fun kv hkv => ?_)]
    · simp
    · rw [interpBeforeGet_no_pct _ _ (wfValP_no_pct ((hwf.1 r hr).2.1 kv hkv).2)]
      rfl
  show (sectionItemsInterp ⟨[], rs.map (fun x => (x.name, x.data))⟩ r.name).map
    (fun it => (r.name, it)) = .ok (r.name, r.data)
  rw [hitems]
  rfl

/-! ## Claim C5: literal percent characters -/

/-- Counterexample to claim C5 as stated: the catalogue parser
(`parse_manifest_ini`, built without `interpolation=None`) stores a literal
`%` raw, but accessing the value — as `process_scenario_section` does for
`external` — applies `BasicInterpolation`: for the catalogue entry
`external=50%` the access raises `InterpolationSyntaxError`, so the entry's
processing raises instead of seeing the value unchanged; `%%` is
substituted to `%` rather than preserved. -/
theorem claim_C5_cex :
    read_string "[A]\nexternal=50%\n" = .ok ⟨[], [("A", [("external", "50%")])]⟩ ∧
    process_scenario_section netA "A" ⟨[], [("A", [("external", "50%")])]⟩ [] ".valkyrie"
      = .error .interpSyntax ∧
    cfgGet ⟨[], [("A", [("external", "50%")])]⟩ "A" "external" = .error .interpSyntax ∧
    cfgGet ⟨[], [("A", [("external", "a%%b")])]⟩ "A" "external" = .ok "a%b" := by
  refine ⟨?_, ?_, ?_, ?_⟩ <;> decide

/-- Claim C5 (corrected): a literal `%` parses unchanged where interpolation
is disabled — the fetched metadata parse stores and returns the raw value
(first conjunct: a document whose value contains any characters, `%`
included, round-trips through `scenarioParse` unchanged) — and catalogue
values are stored raw; but catalogue *access* interpolates: a `%`-free
value is returned unchanged, while `%%` collapses to `%` and a stray `%`
raises an interpolation syntax error. -/
theorem claim_C5_thm :
    (∀ v : String, trimL v.data = v.data → trimR v.data = v.data →
      (∀ c ∈ v.data, c ≠ '\n') →
      scenarioParse ("[Quest]\nvalue=" ++ v ++ "\n")
        = some ⟨[], [("Quest", [("value", v)])]⟩) ∧
    (∀ (lk : String → Option String) (v : String), v.data.contains '%' = false →
      interpBeforeGet lk v = .ok v) ∧
    interpBeforeGet (fun _ => none) "a%%b" = .ok "a%b" ∧
    interpBeforeGet (fun _ => none) "50%" = .error .interpSyntax := by
  refine ⟨?_, fun lk v hp => interpBeforeGet_no_pct lk v hp, by decide, by decide⟩
  intro v hvL hvR hvnl
  have hdata : ("[Quest]\nvalue=" ++ v ++ "\n").data
      = "[Quest]".data ++ '\n' :: (("value".data ++ '=' :: v.data) ++ '\n' :: []) := by
    simp [String.data_append]
  have hB : ∀ c ∈ "value".data ++ '=' :: v.data, c ≠ '\n' := by
    intro c hc
    rcases List.mem_append.1 hc with h | h
    · have hlit : ∀ x ∈ "value".data, x ≠ '\n' := by decide
      exact hlit c h
    · rcases List.mem_cons.1 h with h | h
      · rw [h]; decide
      · exact hvnl c h
  have hlines : pyLines ("[Quest]\nvalue=" ++ v ++ "\n").data
      = ["[Quest]".data, "value".data ++ '=' :: v.data] := by
    rw [hdata]
    unfold pyLines
    rw [splitOnNl_append_nl (by decide), splitOnNl_append_nl hB]
    rfl
  have hs1 : pstep initRS "[Quest]".data
      = .ok ⟨[], [] ++ [("Quest".data, [])], .named "Quest".data, none, 0⟩ := by
    rw [show initRS = (⟨[], [], .noSec, none, 0⟩ : RS) from rfl,
      show "[Quest]".data = '[' :: "Quest".data ++ [']'] from rfl]
    exact pstep_section (by decide) rfl (by decide)
  have hs2 : pstep (⟨[], [] ++ [("Quest".data, [])], .named "Quest".data, none, 0⟩ : RS)
      ("value".data ++ '=' :: v.data)
      = .ok ⟨[],
          ([] ++ [("Quest".data, [])]).map
            (fun (e : List Char × List (List Char × List (List Char))) =>
              if e.1 = "Quest".data
              then (e.1, e.2 ++ [("value".data, [v.data])]) else e),
          .named "Quest".data, some "value".data, 0⟩ :=
    pstep_option (k := "value".data) (n := "Quest".data)
      (by decide) (by decide) (by decide) (by decide) (by decide)
      (by decide) (by decide) hvL hvR (by decide)
  have hread : read_string ("[Quest]\nvalue=" ++ v ++ "\n")
      = .ok ⟨[], [("Quest", [("value", v)])]⟩ := by
    unfold read_string
    rw [hlines, readAux_cons hs1, readAux_cons hs2]
    show Except.ok (⟨[], [("Quest", [("value", finishVal [v.data])])]⟩ : Cfg)
      = Except.ok (⟨[], [("Quest", [("value", v)])]⟩ : Cfg)
    rw [finishVal_single hvR]
  unfold scenarioParse
  rw [hread]

/-- Witness for C5 (amended): a value holding a literal `%` survives the
metadata parse unchanged, and a `%`-free value survives catalogue access. -/
theorem claim_C5_wit :
    scenarioParse ("[Quest]\nvalue=" ++ "50%" ++ "\n")
      = some ⟨[], [("Quest", [("value", "50%")])]⟩ ∧
    interpBeforeGet (fun _ => none) "http://example.com/x" = .ok "http://example.com/x" := by
  constructor
  · exact claim_C5_thm.1 "50%" (by decide) (by decide) (by decide)
  · exact claim_C5_thm.2.1 (fun _ => none) "http://example.com/x" (by decide)

/-! ## Claim C6: serialization round trip -/

/-- Counterexample to claim C6 as stated: serializing the record
`A ↦ {k = a%%b}` and re-parsing stores the raw value, but recovering the
pairs through the catalogue parser interpolates on access, yielding
`a%b` — not the original sequence. -/
theorem claim_C6_cex :
    read_string (serialize_manifest [⟨"A", [("k", "a%%b")]⟩] false)
      = .ok ⟨[], [("A", [("k", "a%%b")])]⟩ ∧
    cfgPairs ⟨[], [("A", [("k", "a%%b")])]⟩ = .ok [("A", [("k", "a%b")])] ∧
    cfgPairs ⟨[], [("A", [("k", "a%%b")])]⟩ ≠ .ok [("A", [("k", "a%%b")])] := by
  refine ⟨?_, ?_, ?_⟩ <;> decide

/-- Claim C6 (corrected): for well-formed records — non-empty newline-free
names other than `DEFAULT`, keys free of delimiters/comment markers and
surrounding whitespace, values free of newlines, surrounding whitespace
and (because reading back interpolates) `%`, names and keys without
duplicates — serializing and re-parsing recovers exactly the same ordered
`(name, data)` pairs, field order preserved: the raw parse is the identity
and reading every section's items returns them unchanged; the count-comment
header line is skipped by the parser. -/
theorem claim_C6_thm (rs : List Record) (cp : Bool) (hwf : wfBatchP rs) :
    read_string (serialize_manifest rs cp) = .ok ⟨[], rs.map (fun r => (r.name, r.data))⟩ ∧
    cfgPairs ⟨[], rs.map (fun r => (r.name, r.data))⟩
      = .ok (rs.map (fun r => (r.name, r.data))) :=
  ⟨read_serialize rs cp hwf, cfgPairs_of_wf rs hwf⟩

/-- Witness for C6 (amended) on a two-record batch, content packs header. -/
theorem claim_C6_wit :
    read_string (serialize_manifest [⟨"Alpha", [("title", "T1"), ("author", "A B")]⟩,
        ⟨"Beta", []⟩] true)
      = .ok ⟨[], [("Alpha", [("title", "T1"), ("author", "A B")]), ("Beta", [])]⟩ ∧
    cfgPairs ⟨[], [("Alpha", [("title", "T1"), ("author", "A B")]), ("Beta", [])]⟩
      = .ok [("Alpha", [("title", "T1"), ("author", "A B")]), ("Beta", [])] := by
  have h := claim_C6_thm [⟨"Alpha", [("title", "T1"), ("author", "A B")]⟩, ⟨"Beta", []⟩] true
    (by decide)
  simpa using h

/-- Witness for C2's universal part at the empty catalogue. -/
theorem claim_C2_wit :
    process_manifest netA [] "" okWriter
      = .ok (collectRecords netA ⟨[], []⟩ [],
          serialize_manifest (collectRecords netA ⟨[], []⟩ []) false) :=
  claim_C2_thm.1 netA [] "" okWriter ⟨[], []⟩ (by decide)
